import Mathlib

/-!
# go-fuse-example: an in-memory read-only FUSE filesystem

Shallow embedding of `main.go`.  Go maps are association lists (the order of
the list of `tree` is the order in which `range tree` visits the keys), a
runtime panic is the outer `none` of an `Option`, machine integers are `Nat`
or `Int` with explicit wrap-around, byte slices are `List UInt8`.
Logging (`fmt.Printf`) is left out.
-/

set_option autoImplicit false

namespace GoFuseExample

/-! ## Library functions used by the program -/

namespace filepath

/-- The `..` case of `filepath.Clean`: `out.w--`, then keep dropping while
`out.w > dotdot` and the byte just dropped is not a separator.  The buffer is
kept reversed (last byte first). -/
def backtrack (dotdot : Nat) : List Char → List Char
  | [] => []
  | c :: rest => if dotdot < rest.length ∧ c ≠ '/' then backtrack dotdot rest else rest

/-- The main loop of `filepath.Clean` on Unix.  `inElem` is true while the
inner copy loop of the "real path element" case is running.  `out` is the
output buffer, reversed; `dotdot` is the index where `..` must stop. -/
def cleanLoop (rooted : Bool) : Bool → List Char → List Char → Nat → List Char
  | _, [], out, _ => out
  | true, c :: rest, out, dotdot =>
    if c = '/' then cleanLoop rooted false rest out dotdot
    else cleanLoop rooted true rest (c :: out) dotdot
  | false, c :: rest, out, dotdot =>
    if c = '/' then
      -- empty path element
      cleanLoop rooted false rest out dotdot
    else if c = '.' ∧ (rest = [] ∨ rest.head? = some '/') then
      -- . element
      cleanLoop rooted false rest out dotdot
    else
      match rest with
      | c2 :: rest2 =>
        if c = '.' ∧ c2 = '.' ∧ (rest2 = [] ∨ rest2.head? = some '/') then
          -- .. element: remove to last separator
          if dotdot < out.length then
            cleanLoop rooted false rest2 (backtrack dotdot out) dotdot
          else if rooted = false then
            let out1 := if 0 < out.length then '/' :: out else out
            let out2 := '.' :: '.' :: out1
            cleanLoop rooted false rest2 out2 out2.length
          else
            cleanLoop rooted false rest2 out dotdot
        else
          let out1 :=
            if (rooted = true ∧ out.length ≠ 1) ∨ (rooted = false ∧ out.length ≠ 0)
            then '/' :: out else out
          cleanLoop rooted true (c2 :: rest2) (c :: out1) dotdot
      | [] =>
        let out1 :=
          if (rooted = true ∧ out.length ≠ 1) ∨ (rooted = false ∧ out.length ≠ 0)
          then '/' :: out else out
        cleanLoop rooted true [] (c :: out1) dotdot

/-- Go `filepath.Clean` on Unix (no volume name).  Go works on bytes; the
bytes it inspects (`/` and `.`) are ASCII, so working on characters gives the
same result on UTF-8 strings. -/
def Clean (path : String) : String :=
  match path.data with
  | [] => "."
  | c :: rest =>
    let rooted : Bool := decide (c = '/')
    let out :=
      if rooted then cleanLoop true false rest ['/'] 1
      else cleanLoop false false (c :: rest) [] 0
    if out.length = 0 then "." else String.mk out.reverse

/-- Go `filepath.Join` for two elements: the elements from the first
non-empty one on are joined with the separator and cleaned. -/
def Join (a b : String) : String :=
  if a ≠ "" then Clean (a ++ "/" ++ b)
  else if b ≠ "" then Clean b
  else ""

end filepath

/-- Go `map[string]V` as an association list; at most one pair per key is
kept by `mapSet`, and `mapGet` returns the first pair with the key. -/
abbrev GoMap (V : Type) := List (String × V)

/-- The map read `v, found := m[k]`: `none` when `found` is false. -/
def mapGet {V : Type} : GoMap V → String → Option V
  | [], _ => none
  | (k1, v) :: rest, k => if k = k1 then some v else mapGet rest k

/-- The map write `m[k] = v`: an existing key is overwritten in place, a new
key is added. -/
def mapSet {V : Type} : GoMap V → String → V → GoMap V
  | [], k, v => [(k, v)]
  | (k1, v1) :: rest, k, v => if k = k1 then (k1, v) :: rest else (k1, v1) :: mapSet rest k v

/-- Go `time.Time`, as far as `Attr.SetTimes` looks at it: `Unix()` and
`Nanosecond()`. -/
structure Time where
  Unix : Int
  Nanosecond : Nat
  deriving DecidableEq, Repr

/-- Conversion of a Go signed integer to `uint64`. -/
def toUint64 (x : Int) : Nat := (x % 2 ^ 64).toNat

/-- Conversion of a Go integer to `uint32`. -/
def toUint32 (x : Int) : Nat := (x % 2 ^ 32).toNat

/-- Wrap-around of a signed 64-bit result (`int` on a 64-bit platform). -/
def wrapInt64 (x : Int) : Int := (x + 2 ^ 63) % 2 ^ 64 - 2 ^ 63

/-- The record `fuse.Attr` (Linux layout). -/
structure Attr where
  Ino : Nat
  Size : Nat
  Blocks : Nat
  Atime : Nat
  Mtime : Nat
  Ctime : Nat
  Atimensec : Nat
  Mtimensec : Nat
  Ctimensec : Nat
  Mode : Nat
  Nlink : Nat
  Uid : Nat
  Gid : Nat
  Rdev : Nat
  Blksize : Nat
  Padding : Nat
  deriving DecidableEq, Repr

/-- The method `(*fuse.Attr).SetTimes` with three non-nil arguments. -/
def Attr.SetTimes (a : Attr) (access mod chstatus : Time) : Attr :=
  { a with
    Atime := toUint64 access.Unix, Atimensec := toUint32 access.Nanosecond,
    Mtime := toUint64 mod.Unix, Mtimensec := toUint32 mod.Nanosecond,
    Ctime := toUint64 chstatus.Unix, Ctimensec := toUint32 chstatus.Nanosecond }

/-- The record `fuse.AttrOut`. -/
structure AttrOut where
  AttrValid : Nat
  AttrValidNsec : Nat
  Dummy : Nat
  Attr : Attr
  deriving DecidableEq, Repr

/-- The record `fuse.EntryOut`. -/
structure EntryOut where
  NodeId : Nat
  Generation : Nat
  EntryValid : Nat
  AttrValid : Nat
  EntryValidNsec : Nat
  AttrValidNsec : Nat
  Attr : Attr
  deriving DecidableEq, Repr

/-- The record `fuse.DirEntry`. -/
structure DirEntry where
  Name : String
  Mode : Nat
  Ino : Nat
  deriving DecidableEq, Repr

/-- The record `fs.StableAttr`. -/
structure StableAttr where
  Mode : Nat
  Gen : Nat
  Ino : Nat
  deriving DecidableEq, Repr

/-- The file made by `nodefs.NewDataFile`. -/
structure dataFile where
  data : List UInt8
  deriving DecidableEq, Repr

/-- The wrapper made by `nodefs.NewReadOnlyFile`. -/
structure readOnlyFile where
  File : dataFile
  deriving DecidableEq, Repr

/-- Status codes of `syscall.Errno`. -/
abbrev Errno := Nat

/-- The status `fs.OK`. -/
def OK : Errno := 0
/-- The status `syscall.ENOENT`. -/
def ENOENT : Errno := 2
/-- The status `syscall.EINVAL`. -/
def EINVAL : Errno := 22

/-- The constant `syscall.S_IFMT`. -/
def S_IFMT : Nat := 0o170000
/-- The constant `syscall.S_IFDIR`. -/
def S_IFDIR : Nat := 0o040000
/-- The constant `syscall.S_IFREG`. -/
def S_IFREG : Nat := 0o100000

/-- Conversion `float64(x)` of a `uint64`: round to nearest, ties to even, with
a 53-bit significand.  The result is an integer-valued float; it is
represented by that integer. -/
def float64OfUint64 (x : Nat) : Nat :=
  if x < 2 ^ 53 then x
  else
    let e := Nat.log2 x - 52
    let q := x / 2 ^ e
    let r := x % 2 ^ e
    let half := 2 ^ (e - 1)
    if r < half then q * 2 ^ e
    else if half < r then (q + 1) * 2 ^ e
    else if q % 2 = 0 then q * 2 ^ e
    else (q + 1) * 2 ^ e

/-- The function `math.Ceil` on an integer-valued float, which it returns
unchanged. -/
def mathCeil (x : Nat) : Nat := x

/-- Conversion `uint64(f)` of an integer-valued float below `2^64`. -/
def uint64OfFloat64 (f : Nat) : Nat := f % 2 ^ 64

/-! ## The data model -/

/-- The record `indexedFile`. -/
structure indexedFile where
  Filename : String
  IsDirectory : Bool
  Timestamp : Time
  Inode : Nat
  Size : Nat
  Data : List UInt8
  deriving DecidableEq, Repr

/-- The method `indexedFile.size`. -/
def indexedFile.size (file : indexedFile) : Nat :=
  if file.IsDirectory = true then
    -- Just a small consistent constant size to show for all directories.
    10
  else
    file.Data.length % 2 ^ 64

/-- The method `indexedFile.mode`. -/
def indexedFile.mode (file : indexedFile) : Nat :=
  if file.IsDirectory = true then
    0o755 ||| S_IFDIR
  else
    0o644 ||| S_IFREG

/-- The method `indexedFile.setAttributes`. -/
def indexedFile.setAttributes (file : indexedFile) (out : Attr) : Attr :=
  let out := out.SetTimes file.Timestamp file.Timestamp file.Timestamp
  let out := { out with Mode := file.mode }
  let out := { out with Ino := file.Inode }
  let out := { out with Size := file.size }
  let out := { out with Blksize := 1024 }
  let out := { out with Blocks := uint64OfFloat64 (mathCeil (float64OfUint64 (out.Size / out.Blksize))) }
  let out := { out with Uid := 1000 }
  { out with Gid := 1000 }

/-- The flat index `fileIndex` as declared: only the root entry.  `now i` is
the value of the `i`-th call of `time.Now()` during package initialisation. -/
def fileIndex (now : Nat → Time) : GoMap indexedFile :=
  [("/", { Filename := "", IsDirectory := true, Timestamp := now 0, Inode := 1001,
           Size := 0, Data := [] })]

/-- The bytes of `"test content k\r\n"`, `digit` being the byte of `k`. -/
def testContent (digit : UInt8) : List UInt8 :=
  [116, 101, 115, 116, 32, 99, 111, 110, 116, 101, 110, 116, 32, digit, 13, 10]

/-- The hierarchy `tree` as declared. -/
def tree (now : Nat → Time) : GoMap (List indexedFile) :=
  [("/",
    [{ Filename := "subdirectory1", IsDirectory := true, Timestamp := now 1, Inode := 1002,
       Size := 0, Data := [] },
     { Filename := "file1", IsDirectory := false, Timestamp := now 2, Inode := 11,
       Size := 0, Data := testContent 49 },
     { Filename := "file2", IsDirectory := false, Timestamp := now 3, Inode := 22,
       Size := 0, Data := testContent 50 },
     { Filename := "file3", IsDirectory := false, Timestamp := now 4, Inode := 33,
       Size := 0, Data := testContent 51 }]),
   ("/subdirectory1",
    [{ Filename := "file4", IsDirectory := false, Timestamp := now 5, Inode := 44,
       Size := 0, Data := testContent 52 },
     { Filename := "file5", IsDirectory := false, Timestamp := now 6, Inode := 55,
       Size := 0, Data := testContent 53 },
     { Filename := "file6", IsDirectory := false, Timestamp := now 7, Inode := 66,
       Size := 0, Data := testContent 54 }])]

/-- The inner loop of `init`: every child of one directory is stored in the
flat index under its full path. -/
def initChildren (parentPath : String) : List indexedFile → GoMap indexedFile → GoMap indexedFile
  | [], index => index
  | child :: rest, index =>
    let fullPath := filepath.Join parentPath child.Filename
    initChildren parentPath rest (mapSet index fullPath child)

/-- The function `init`: the derivation pass.  The pairs of `t` are visited
in the order of the list, which stands for the order of `range tree`. -/
def init : GoMap (List indexedFile) → GoMap indexedFile → GoMap indexedFile
  | [], index => index
  | (parentPath, children) :: rest, index => init rest (initChildren parentPath children index)

/-- The program state that the operations read: both maps. -/
structure Hierarchy where
  fileIndex : GoMap indexedFile
  tree : GoMap (List indexedFile)

/-- The state when serving starts: the declared maps after `init` has run. -/
def shipped (now : Nat → Time) : Hierarchy :=
  { fileIndex := init (tree now) (fileIndex now), tree := tree now }

/-! ## The filesystem node -/

/-- What the program observes of the embedded `fs.Inode`: `Path(nil)`, the
`path` field of `Root().Operations()`, the stable attributes the inode was
registered with, and whether a bridge has initialised it (`bridge != nil`). -/
structure Inode where
  relPath : String
  rootPath : String
  stableAttr : StableAttr
  bridge : Bool
  deriving DecidableEq, Repr

/-- The record `HelloNode`. -/
structure HelloNode where
  Inode : Inode
  path : String
  deriving DecidableEq, Repr

/-- The function `NewHelloNode`: the embedded inode is the zero value. -/
def NewHelloNode (path : String) : HelloNode :=
  { Inode := { relPath := "", rootPath := "", stableAttr := { Mode := 0, Gen := 0, Ino := 0 },
               bridge := false },
    path := path }

/-- The part of `fs.rawBridge` that `NewInode` reads and writes: the next
automatic inode number and the table `nodes` of the live inodes by inode
number. -/
structure rawBridge where
  automaticIno : Nat
  nodes : List (Nat × HelloNode)
  deriving DecidableEq, Repr

/-- The table read `b.nodes[ino]`: `none` for nil. -/
def nodesGet : List (Nat × HelloNode) → Nat → Option HelloNode
  | [], _ => none
  | (i, n) :: rest, ino => if ino = i then some n else nodesGet rest ino

/-- The method `StableAttr.Reserved`: the inode numbers 1 and `^uint64(0)` are
reserved. -/
def StableAttr.Reserved (i : StableAttr) : Bool :=
  decide (i.Ino = 1 ∨ i.Ino = 2 ^ 64 - 1)

/-- The method `fs.Inode.NewInode` (the bridge's `newInode`) on the bridge
state `b`; `none` is the panic "using reserved ID".  An `ops` that a bridge has
already initialised is returned as it is.  Otherwise the inode number 0 is
replaced by the next automatic number, only the file type bits of the mode
are kept (0 standing for a regular file), and when the table already has a live
inode with the number, that inode is returned and the new one ignored; else the
new inode is initialised and stored in the table.  A new inode has no parent
link yet, so its `Path(nil)` is empty until the bridge adds it to the tree. -/
def HelloNode.NewInode (hn : HelloNode) (b : rawBridge) (ops : HelloNode) (id : StableAttr) :
    Option (HelloNode × rawBridge) :=
  if id.Reserved = true then none
  else if ops.Inode.bridge = true then some (ops, b)
  else
    let ino := if id.Ino = 0 then b.automaticIno else id.Ino
    let b1 : rawBridge :=
      if id.Ino = 0 then { b with automaticIno := (b.automaticIno + 1) % 2 ^ 64 } else b
    -- Only the file type bits matter
    let mode := id.Mode &&& S_IFMT
    let mode := if mode = 0 then S_IFREG else mode
    match nodesGet b1.nodes ino with
    | some old => some (old, b1)
    | none =>
      let node : HelloNode :=
        { ops with Inode := { relPath := "", rootPath := hn.Inode.rootPath,
                              stableAttr := { Mode := mode, Gen := id.Gen, Ino := ino },
                              bridge := true } }
      some (node, { b1 with nodes := (ino, node) :: b1.nodes })

/-- The method `HelloNode.currentPath`. -/
def HelloNode.currentPath (hn : HelloNode) : String :=
  let path := hn.Inode.relPath
  filepath.Join hn.Inode.rootPath path

/-- A node of the mounted filesystem (root path `/`) whose path below the
root is `rel`. -/
def nodeAt (rel : String) : HelloNode :=
  { Inode := { relPath := rel, rootPath := "/", stableAttr := { Mode := 0, Gen := 0, Ino := 0 },
               bridge := true },
    path := "" }

/-- The bridge right after mounting: automatic numbers start at `2^63` and the
table holds the root under the number 1. -/
def mountBridge : rawBridge :=
  { automaticIno := 2 ^ 63,
    nodes := [(1, { Inode := { relPath := "", rootPath := "/",
                               stableAttr := { Mode := S_IFDIR, Gen := 0, Ino := 1 },
                               bridge := true },
                    path := "/" })] }

/-- The method `HelloNode.Getattr`: the attributes written to `out` and the
status. -/
def HelloNode.Getattr (h : Hierarchy) (hn : HelloNode) (_f : Option readOnlyFile)
    (out : AttrOut) : AttrOut × Errno :=
  let path := hn.currentPath
  match mapGet h.fileIndex path with
  | none => (out, ENOENT)
  | some entry => ({ out with Attr := entry.setAttributes out.Attr }, OK)

/-- The method `HelloNode.Opendir`. -/
def HelloNode.Opendir (h : Hierarchy) (hn : HelloNode) : Errno :=
  let path := hn.currentPath
  match mapGet h.tree path with
  | none => ENOENT
  | some _ => OK

/-- The method `HelloNode.Readdir`: the entries handed to
`fs.NewListDirStream` (`none` for a nil stream) and the status. -/
def HelloNode.Readdir (h : Hierarchy) (hn : HelloNode) : Option (List DirEntry) × Errno :=
  let path := hn.currentPath
  match mapGet h.tree path with
  | none => (none, ENOENT)
  | some files =>
    let entries := files.map fun file =>
      ({ Name := file.Filename, Mode := file.mode, Ino := file.Inode } : DirEntry)
    (some entries, OK)

/-- The method `HelloNode.Lookup` on the bridge state `b`: the outer `none` is
the panic of `NewInode`; otherwise the attributes written to `out`, the child
inode (`none` for nil) and the status, and the bridge state after the call. -/
def HelloNode.Lookup (h : Hierarchy) (b : rawBridge) (hn : HelloNode) (name : String)
    (out : EntryOut) : Option ((EntryOut × Option HelloNode × Errno) × rawBridge) :=
  let childPath := filepath.Join hn.currentPath name
  match mapGet h.fileIndex childPath with
  | none => some ((out, none, ENOENT), b)
  | some entry =>
    let out := { out with Attr := entry.setAttributes out.Attr }
    let childHelloNode := NewHelloNode childPath
    let sa : StableAttr := { Mode := entry.mode, Gen := 1, Ino := entry.Inode }
    match hn.NewInode b childHelloNode sa with
    | none => none
    | some (childNode, b1) => some ((out, some childNode, OK), b1)

/-- The slice expression `s[lo:hi]` on a byte slice whose capacity is its
length; `none` is the panic "slice bounds out of range". -/
def sliceBytes (s : List UInt8) (lo hi : Int) : Option (List UInt8) :=
  if 0 ≤ lo ∧ lo ≤ hi ∧ hi ≤ s.length then some ((s.take hi.toNat).drop lo.toNat) else none

/-- The method `HelloNode.Read`: the outer `none` is a runtime panic;
otherwise the bytes of the read result (`none` for nil) and the status.
`int` is 64 bits wide. -/
def HelloNode.Read (h : Hierarchy) (hn : HelloNode) (_fh : Option readOnlyFile)
    (dest : List UInt8) (off : Int) : Option (Option (List UInt8) × Errno) :=
  let filepath := hn.currentPath
  match mapGet h.fileIndex filepath with
  | none => some (none, ENOENT)
  | some entry =>
    let end1 := wrapInt64 (off + dest.length)
    let end2 := if end1 > entry.Data.length then (entry.Data.length : Int) else end1
    match sliceBytes entry.Data off end2 with
    | none => none
    | some data => some (some data, OK)

/-- The method `HelloNode.Flush`. -/
def HelloNode.Flush (_h : Hierarchy) (_hn : HelloNode) (_fh : Option readOnlyFile) : Errno :=
  OK

/-- The method `HelloNode.Open`: the file handle (`none` for nil), the FUSE
flags and the status. -/
def HelloNode.Open (h : Hierarchy) (hn : HelloNode) (mode : Nat) :
    Option readOnlyFile × Nat × Errno :=
  let filepath := hn.currentPath
  if mode &&& S_IFREG = 0 then
    (none, 0, ENOENT)
  else
    match mapGet h.fileIndex filepath with
    | none => (none, 0, ENOENT)
    | some entry =>
      let df : dataFile := { data := entry.Data }
      let rf : readOnlyFile := { File := df }
      (some rf, 0, 0)

/-- The file `a` of scenario 1 of the specification, with payload `"hi\n"`. -/
def fileA : indexedFile :=
  { Filename := "a", IsDirectory := false, Timestamp := ⟨0, 0⟩, Inode := 2, Size := 0,
    Data := [104, 105, 10] }

/-- The hierarchy of scenario 1 of the specification: the root and the file
`a`. -/
def scenario1 : Hierarchy :=
  let t : GoMap (List indexedFile) := [("/", [fileA])]
  { fileIndex := init t (fileIndex fun _ => ⟨0, 0⟩), tree := t }

/-- A clock that always shows the epoch, for concrete runs. -/
def epoch : Nat → Time := fun _ => ⟨0, 0⟩

/-- The zero value of `fuse.Attr`. -/
def zeroAttr : Attr := ⟨0, 0, 0, 0, 0, 0, 0, 0, 0, 0, 0, 0, 0, 0, 0, 0⟩

/-- The zero value of `fuse.AttrOut`. -/
def zeroAttrOut : AttrOut := ⟨0, 0, 0, zeroAttr⟩

/-- The zero value of `fuse.EntryOut`. -/
def zeroEntryOut : EntryOut := ⟨0, 0, 0, 0, 0, 0, zeroAttr⟩

/-- A hierarchy whose tree has a key that no declaration puts in the flat
index: the directory `/x` is declared with no children and is nobody's child. -/
def orphanTree : Hierarchy :=
  let t : GoMap (List indexedFile) := [("/x", [])]
  { fileIndex := init t (fileIndex epoch), tree := t }

/-- A hierarchy whose root has a child `r` with the reserved inode number 1,
a child `z` with the inode number 0, and two children `l1` and `l2` that share
the inode number 5. -/
def oddInodes : Hierarchy :=
  let t : GoMap (List indexedFile) :=
    [("/", [{ Filename := "r", IsDirectory := false, Timestamp := ⟨0, 0⟩, Inode := 1, Size := 0,
              Data := [] },
            { Filename := "z", IsDirectory := false, Timestamp := ⟨0, 0⟩, Inode := 0, Size := 0,
              Data := [] },
            { Filename := "l1", IsDirectory := false, Timestamp := ⟨0, 0⟩, Inode := 5, Size := 0,
              Data := [] },
            { Filename := "l2", IsDirectory := false, Timestamp := ⟨0, 0⟩, Inode := 5, Size := 0,
              Data := [] }])]
  { fileIndex := init t (fileIndex epoch), tree := t }

/-- A file declared under the name `a`. -/
def entryA1 : indexedFile :=
  { Filename := "a", IsDirectory := false, Timestamp := ⟨0, 0⟩, Inode := 2, Size := 0,
    Data := [1] }

/-- Another file declared under the same name `a`. -/
def entryA2 : indexedFile :=
  { Filename := "a", IsDirectory := false, Timestamp := ⟨0, 0⟩, Inode := 3, Size := 0,
    Data := [2] }

/-- A tree whose root declares the full path `/a` twice. -/
def twiceDeclared : GoMap (List indexedFile) := [("/", [entryA1, entryA2])]

/-- A file declared under `/` with the name `x/y`. -/
def entryXY : indexedFile :=
  { Filename := "x/y", IsDirectory := false, Timestamp := ⟨0, 0⟩, Inode := 4, Size := 0,
    Data := [] }

/-- A file declared under `/x` with the name `y`. -/
def entryY : indexedFile :=
  { Filename := "y", IsDirectory := false, Timestamp := ⟨0, 0⟩, Inode := 5, Size := 0,
    Data := [] }

/-- A tree in which two directories declare the full path `/x/y`. -/
def crossDeclared : GoMap (List indexedFile) := [("/", [entryXY]), ("/x", [entryY])]

/-- A file declared under `/` with the name `.`, whose full path is `/`. -/
def entryDot : indexedFile :=
  { Filename := ".", IsDirectory := false, Timestamp := ⟨0, 0⟩, Inode := 7, Size := 0,
    Data := [] }

/-- A tree with a child whose full path is the root path. -/
def rootRedeclared : GoMap (List indexedFile) := [("/", [entryDot])]

/-- The keys `fullPath` that `init` assigns, in the order of the
assignments. -/
def declaredPaths : GoMap (List indexedFile) → List String
  | [] => []
  | (parentPath, children) :: rest =>
    children.map (fun child => filepath.Join parentPath child.Filename) ++ declaredPaths rest

/-- The state when serving starts if `range tree` visits the key
`/subdirectory1` before the key `/`. -/
def shippedReversed (now : Nat → Time) : Hierarchy :=
  { fileIndex := init (tree now).reverse (fileIndex now), tree := (tree now).reverse }

/-! ## Lemmas on maps and machine integers -/

theorem mapGet_mapSet {V : Type} (m : GoMap V) (k k2 : String) (v : V) :
    mapGet (mapSet m k v) k2 = if k2 = k then some v else mapGet m k2 := by
  induction m with
  | nil => simp [mapSet, mapGet]
  | cons p rest ih =>
    obtain ⟨k1, v1⟩ := p
    by_cases hk : k = k1
    · subst hk
      by_cases h2 : k2 = k <;> simp [mapSet, mapGet, h2]
    · by_cases h2 : k2 = k1
      · subst h2
        have : ¬ k2 = k := fun h => hk h.symm
        simp [mapSet, mapGet, hk, this]
      · simp [mapSet, mapGet, hk, h2, ih]

theorem wrapInt64_of_inRange (x : Int) (hlo : -(2 ^ 63) ≤ x) (hhi : x < 2 ^ 63) :
    wrapInt64 x = x := by
  unfold wrapInt64
  omega

/-- The examples of the Go documentation of `filepath.Clean` and
`filepath.Join`, and the paths of the shipped hierarchy. -/
theorem filepath_examples :
    filepath.Clean "a/c" = "a/c" ∧ filepath.Clean "a//c" = "a/c"
      ∧ filepath.Clean "a/c/." = "a/c" ∧ filepath.Clean "a/c/b/.." = "a/c"
      ∧ filepath.Clean "/../a/c" = "/a/c" ∧ filepath.Clean "/../a/b/../././/c" = "/a/c"
      ∧ filepath.Clean "" = "." ∧ filepath.Clean "../../a" = "../../a"
      ∧ filepath.Join "a" "b/c" = "a/b/c" ∧ filepath.Join "a/b" "../../../xyz" = "../xyz"
      ∧ filepath.Join "a" "" = "a" ∧ filepath.Join "" "" = "" ∧ filepath.Join "" "a" = "a"
      ∧ filepath.Join "/" "" = "/" ∧ filepath.Join "/" "file1" = "/file1"
      ∧ filepath.Join "/subdirectory1" "file4" = "/subdirectory1/file4"
      ∧ filepath.Join "/" "subdirectory1/file4" = "/subdirectory1/file4" := by
  decide

/-! ## Read -/

/-- C1: for a path present in the flat index with payload `d`, every
destination `dest` and every offset with `0 ≤ off ≤ len(d)` (the sum
`int(off) + len(dest)` not overflowing `int`), `Read` succeeds and returns
exactly `d[off : min(off + len(dest), len(d))]`; at `off = len(d)` the result is
empty, and when `off + len(dest) > len(d)` it is `d[off:]`. -/
theorem Read_returns_slice (h : Hierarchy) (hn : HelloNode) (fh : Option readOnlyFile)
    (entry : indexedFile) (dest : List UInt8) (off : Int)
    (hfound : mapGet h.fileIndex hn.currentPath = some entry)
    (h0 : 0 ≤ off) (hlen : off ≤ entry.Data.length) (hsum : off + dest.length < 2 ^ 63) :
    hn.Read h fh dest off
        = some (some ((entry.Data.take (min (off.toNat + dest.length) entry.Data.length)).drop
            off.toNat), OK)
      ∧ (off = entry.Data.length → hn.Read h fh dest off = some (some [], OK))
      ∧ (off + dest.length > entry.Data.length →
          hn.Read h fh dest off = some (some (entry.Data.drop off.toNat), OK)) := by
  have hw : wrapInt64 (off + dest.length) = off + dest.length :=
    wrapInt64_of_inRange _ (by omega) hsum
  have main : hn.Read h fh dest off
      = some (some ((entry.Data.take (min (off.toNat + dest.length) entry.Data.length)).drop
          off.toNat), OK) := by
    simp only [HelloNode.Read, hfound, hw]
    by_cases hgt : off + (dest.length : Int) > (entry.Data.length : Int)
    · have hmin : min (off.toNat + dest.length) entry.Data.length = entry.Data.length := by
        omega
      simp [hgt, sliceBytes, h0, hlen, hmin]
    · have hmin : min (off.toNat + dest.length) entry.Data.length = off.toNat + dest.length := by
        omega
      have hto : (off + (dest.length : Int)).toNat = off.toNat + dest.length := by omega
      have hle : off + (dest.length : Int) ≤ (entry.Data.length : Int) := by omega
      simp [hgt, sliceBytes, h0, hle, hmin, hto]
  refine ⟨main, ?_, ?_⟩
  · intro heq
    rw [main]
    have : entry.Data.length ≤ off.toNat := by omega
    simp [List.drop_eq_nil_iff, this]
  · intro hgt
    rw [main]
    have hmin : min (off.toNat + dest.length) entry.Data.length = entry.Data.length := by
      omega
    simp [hmin]

/-- Scenario 1 of the specification: with payload `"hi\n"`,
`Read(10, 0) = "hi\n"`. -/
theorem Read_returns_slice_witness :
    mapGet scenario1.fileIndex (nodeAt "a").currentPath
        = some fileA
      ∧ (nodeAt "a").Read scenario1 none (List.replicate 10 0) 0 = some (some [104, 105, 10], OK)
      ∧ (nodeAt "a").Read scenario1 none [0] 1 = some (some [105], OK) := by
  have e : mapGet scenario1.fileIndex (nodeAt "a").currentPath
      = some fileA := by decide
  refine ⟨e, ?_, ?_⟩
  · have := (Read_returns_slice scenario1 (nodeAt "a") none _ (List.replicate 10 0) 0 e
      (by decide) (by decide) (by decide)).1
    simpa using this
  · have := (Read_returns_slice scenario1 (nodeAt "a") none _ [0] 1 e
      (by decide) (by decide) (by decide)).1
    simpa using this

/-- C2: for a path present in the flat index with payload `d` and an offset
strictly greater than `len(d)`, the slice expression `d[off:end]` is out of
range: `Read` panics where the claim promises an empty result with status OK. -/
theorem Read_past_end_panics (h : Hierarchy) (hn : HelloNode) (fh : Option readOnlyFile)
    (entry : indexedFile) (dest : List UInt8) (off : Int)
    (hfound : mapGet h.fileIndex hn.currentPath = some entry)
    (hgt : (entry.Data.length : Int) < off) (hoff : off < 2 ^ 63)
    (hdest : (dest.length : Int) < 2 ^ 63) :
    hn.Read h fh dest off = none := by
  have hw : wrapInt64 (off + dest.length) = off + dest.length
      ∨ wrapInt64 (off + dest.length) < 0 := by
    unfold wrapInt64
    omega
  simp only [HelloNode.Read, hfound]
  have hnone : sliceBytes entry.Data off
      (if wrapInt64 (off + dest.length) > entry.Data.length then (entry.Data.length : Int)
        else wrapInt64 (off + dest.length)) = none := by
    unfold sliceBytes
    rw [if_neg]
    intro hc
    obtain ⟨_, h2, _⟩ := hc
    split at h2 <;> omega
  rw [hnone]

/-- With payload `"hi\n"` (3 bytes), `Read` of one byte at offset 4 panics. -/
theorem Read_past_end_panics_witness :
    mapGet scenario1.fileIndex (nodeAt "a").currentPath
        = some fileA
      ∧ (nodeAt "a").Read scenario1 none [0] 4 = none :=
  ⟨by decide, Read_past_end_panics scenario1 (nodeAt "a") none fileA [0] 4 (by decide) (by decide)
    (by decide) (by decide)⟩

/-! ## Attributes -/

theorem float64OfUint64_exact (x : Nat) (hx : x < 2 ^ 53) : float64OfUint64 x = x := by
  unfold float64OfUint64
  rw [if_pos hx]

/-- The block count that `setAttributes` writes is the quotient of the
integer division `Size / Blksize`, which is rounded down before
`math.Ceil` sees it. -/
theorem setAttributes_Blocks_floor (file : indexedFile) (out : Attr)
    (hlen : file.Data.length < 2 ^ 63) :
    (file.setAttributes out).Blocks = file.size / 1024 := by
  have hsz : file.size < 2 ^ 63 := by
    unfold indexedFile.size
    split
    · norm_num
    · exact lt_of_le_of_lt (Nat.mod_le _ _) hlen
  have hq : file.size / 1024 < 2 ^ 53 := by omega
  simp only [indexedFile.setAttributes, mathCeil, uint64OfFloat64]
  rw [float64OfUint64_exact _ hq]
  omega

/-- C3: the block count written by `setAttributes` is not the rounded-up
quotient: every entry whose size is below the block size 1024 reports zero
blocks, also when the size is non-zero. -/
theorem setAttributes_Blocks_zero (file : indexedFile) (out : Attr) (hsz : file.size < 1024) :
    (file.setAttributes out).Size = file.size ∧ (file.setAttributes out).Blksize = 1024
      ∧ (file.setAttributes out).Blocks = 0 := by
  have hq : file.size / 1024 = 0 := by omega
  simp [indexedFile.setAttributes, mathCeil, uint64OfFloat64, hq, float64OfUint64]

/-- The 16-byte file `/file1` and a directory of nominal size 10 both report
zero blocks. -/
theorem setAttributes_Blocks_zero_witness :
    (({ Filename := "file1", IsDirectory := false, Timestamp := ⟨0, 0⟩, Inode := 11, Size := 0,
        Data := testContent 49 } : indexedFile).size = 16
      ∧ (({ Filename := "file1", IsDirectory := false, Timestamp := ⟨0, 0⟩, Inode := 11,
            Size := 0, Data := testContent 49 } : indexedFile).setAttributes zeroAttr).Blocks = 0)
      ∧ (({ Filename := "subdirectory1", IsDirectory := true, Timestamp := ⟨0, 0⟩,
            Inode := 1002, Size := 0, Data := [] } : indexedFile).size = 10
        ∧ (({ Filename := "subdirectory1", IsDirectory := true, Timestamp := ⟨0, 0⟩,
              Inode := 1002, Size := 0, Data := [] } : indexedFile).setAttributes
                zeroAttr).Blocks = 0) :=
  ⟨⟨by decide, (setAttributes_Blocks_zero _ zeroAttr (by decide)).2.2⟩,
   ⟨by decide, (setAttributes_Blocks_zero _ zeroAttr (by decide)).2.2⟩⟩

/-! ## The shipped hierarchy -/

theorem shipped_fileIndex (now : Nat → Time) :
    (shipped now).fileIndex =
      [("/", { Filename := "", IsDirectory := true, Timestamp := now 0, Inode := 1001,
               Size := 0, Data := [] }),
       ("/subdirectory1", { Filename := "subdirectory1", IsDirectory := true,
                            Timestamp := now 1, Inode := 1002, Size := 0, Data := [] }),
       ("/file1", { Filename := "file1", IsDirectory := false, Timestamp := now 2, Inode := 11,
                    Size := 0, Data := testContent 49 }),
       ("/file2", { Filename := "file2", IsDirectory := false, Timestamp := now 3, Inode := 22,
                    Size := 0, Data := testContent 50 }),
       ("/file3", { Filename := "file3", IsDirectory := false, Timestamp := now 4, Inode := 33,
                    Size := 0, Data := testContent 51 }),
       ("/subdirectory1/file4", { Filename := "file4", IsDirectory := false, Timestamp := now 5,
                                  Inode := 44, Size := 0, Data := testContent 52 }),
       ("/subdirectory1/file5", { Filename := "file5", IsDirectory := false, Timestamp := now 6,
                                  Inode := 55, Size := 0, Data := testContent 53 }),
       ("/subdirectory1/file6", { Filename := "file6", IsDirectory := false, Timestamp := now 7,
                                  Inode := 66, Size := 0, Data := testContent 54 })] := by
  rfl

theorem shipped_tree_key_in_fileIndex (now : Nat → Time) (p : String)
    (habs : mapGet (shipped now).fileIndex p = none) : mapGet (shipped now).tree p = none := by
  rw [shipped_fileIndex] at habs
  simp only [shipped, tree, mapGet] at habs ⊢
  by_cases h1 : p = "/"
  · simp [h1] at habs
  · by_cases h2 : p = "/subdirectory1"
    · simp [h1, h2] at habs
    · simp [h1, h2]

/-! ## Absent paths -/

/-- C4, as stated, fails: on a path absent from the flat index `Flush` returns
OK; `Lookup` with the name `..` resolves to the root and succeeds; and
`Opendir` and `Readdir` succeed on a tree key that is not a flat-index key. -/
theorem absent_path_not_all_ENOENT :
    (mapGet (shipped epoch).fileIndex (nodeAt "missing").currentPath = none
      ∧ (nodeAt "missing").Flush (shipped epoch) none = OK ∧ OK ≠ ENOENT
      ∧ ((nodeAt "missing").Lookup (shipped epoch) mountBridge ".." zeroEntryOut).map
          (fun r => r.1.2.2) = some OK)
    ∧ (mapGet orphanTree.fileIndex (nodeAt "x").currentPath = none
      ∧ (nodeAt "x").Opendir orphanTree = OK
      ∧ (nodeAt "x").Readdir orphanTree = (some [], OK)) := by
  decide

/-- C4, amended: on a node whose path is absent from the flat index, `Getattr`,
`Open` (any mode) and `Read` (any destination and offset) fail with ENOENT;
`Opendir` and `Readdir` fail with ENOENT when the path is absent from the tree,
which holds for every such path of the shipped hierarchy; `Lookup` of a name
fails with ENOENT when the joined child path is absent from the flat index;
`Flush` returns OK. -/
theorem absent_path_results (h : Hierarchy) (hn : HelloNode)
    (habs : mapGet h.fileIndex hn.currentPath = none) :
    (∀ f out, hn.Getattr h f out = (out, ENOENT))
      ∧ (∀ mode, hn.Open h mode = (none, 0, ENOENT))
      ∧ (∀ fh dest off, hn.Read h fh dest off = some (none, ENOENT))
      ∧ (mapGet h.tree hn.currentPath = none →
          hn.Opendir h = ENOENT ∧ hn.Readdir h = (none, ENOENT))
      ∧ (∀ now, h.fileIndex = (shipped now).fileIndex → h.tree = (shipped now).tree →
          hn.Opendir h = ENOENT ∧ hn.Readdir h = (none, ENOENT))
      ∧ (∀ b name out, mapGet h.fileIndex (filepath.Join hn.currentPath name) = none →
          hn.Lookup h b name out = some ((out, none, ENOENT), b))
      ∧ (∀ fh, hn.Flush h fh = OK) := by
  have hdir : mapGet h.tree hn.currentPath = none →
      hn.Opendir h = ENOENT ∧ hn.Readdir h = (none, ENOENT) := by
    intro ht
    simp [HelloNode.Opendir, HelloNode.Readdir, ht]
  refine ⟨?_, ?_, ?_, hdir, ?_, ?_, ?_⟩
  · intro f out
    simp [HelloNode.Getattr, habs]
  · intro mode
    by_cases hm : mode &&& S_IFREG = 0 <;> simp [HelloNode.Open, habs, hm]
  · intro fh dest off
    simp [HelloNode.Read, habs]
  · intro now hfi ht
    apply hdir
    rw [ht]
    apply shipped_tree_key_in_fileIndex
    rw [← hfi]
    exact habs
  · intro b name out hchild
    simp [HelloNode.Lookup, hchild]
  · intro fh
    rfl

/-- In the shipped hierarchy the node at `/missing` gets ENOENT from `Getattr`,
`Open`, `Read`, `Opendir`, `Readdir` and `Lookup` of `file1`. -/
theorem absent_path_results_witness :
    mapGet (shipped epoch).fileIndex (nodeAt "missing").currentPath = none
      ∧ (nodeAt "missing").Getattr (shipped epoch) none zeroAttrOut = (zeroAttrOut, ENOENT)
      ∧ (nodeAt "missing").Open (shipped epoch) S_IFREG = (none, 0, ENOENT)
      ∧ (nodeAt "missing").Read (shipped epoch) none [0] 0 = some (none, ENOENT)
      ∧ (nodeAt "missing").Opendir (shipped epoch) = ENOENT
      ∧ (nodeAt "missing").Lookup (shipped epoch) mountBridge "file1" zeroEntryOut
          = some ((zeroEntryOut, none, ENOENT), mountBridge) :=
  have r := absent_path_results (shipped epoch) (nodeAt "missing") (by decide)
  ⟨by decide, r.1 none zeroAttrOut, r.2.1 S_IFREG, r.2.2.1 none [0] 0,
    (r.2.2.2.2.1 epoch rfl rfl).1, r.2.2.2.2.2.1 mountBridge "file1" zeroEntryOut (by decide)⟩

/-! ## Getattr -/

theorem mode_typeTag (file : indexedFile) :
    file.mode &&& S_IFMT = if file.IsDirectory = true then S_IFDIR else S_IFREG := by
  unfold indexedFile.mode
  split <;> decide

theorem setAttributes_Ino (file : indexedFile) (out : Attr) :
    (file.setAttributes out).Ino = file.Inode := rfl

theorem setAttributes_Mode (file : indexedFile) (out : Attr) :
    (file.setAttributes out).Mode = file.mode := rfl

/-- C5: `Getattr` on a node succeeds exactly when the node's path is a key of
the flat index; on success the attributes carry the entry's inode and a mode
whose type tag is `S_IFDIR` for a directory and `S_IFREG` for a file; on an
absent path it returns ENOENT and the output attributes are unchanged. -/
theorem Getattr_present_iff (h : Hierarchy) (hn : HelloNode) (f : Option readOnlyFile)
    (out : AttrOut) :
    ((hn.Getattr h f out).2 = OK ↔ ∃ entry, mapGet h.fileIndex hn.currentPath = some entry)
      ∧ (∀ entry, mapGet h.fileIndex hn.currentPath = some entry →
          (hn.Getattr h f out).2 = OK
            ∧ (hn.Getattr h f out).1.Attr.Ino = entry.Inode
            ∧ (hn.Getattr h f out).1.Attr.Mode &&& S_IFMT
                = if entry.IsDirectory = true then S_IFDIR else S_IFREG)
      ∧ (mapGet h.fileIndex hn.currentPath = none → hn.Getattr h f out = (out, ENOENT)) := by
  cases hget : mapGet h.fileIndex hn.currentPath with
  | none =>
    have hne : ENOENT ≠ OK := by decide
    simp [HelloNode.Getattr, hget, hne]
  | some entry =>
    simp [HelloNode.Getattr, hget, setAttributes_Ino, setAttributes_Mode, mode_typeTag]

/-- In the shipped hierarchy `Getattr` succeeds on `/file1` (inode 11, a regular
file) and on `/subdirectory1` (inode 1002, a directory), and fails on
`/missing`. -/
theorem Getattr_present_iff_witness :
    (((nodeAt "file1").Getattr (shipped epoch) none zeroAttrOut).2 = OK
        ∧ ((nodeAt "file1").Getattr (shipped epoch) none zeroAttrOut).1.Attr.Ino = 11
        ∧ ((nodeAt "file1").Getattr (shipped epoch) none zeroAttrOut).1.Attr.Mode &&& S_IFMT
            = S_IFREG)
      ∧ (((nodeAt "subdirectory1").Getattr (shipped epoch) none zeroAttrOut).2 = OK
        ∧ ((nodeAt "subdirectory1").Getattr (shipped epoch) none zeroAttrOut).1.Attr.Ino = 1002
        ∧ ((nodeAt "subdirectory1").Getattr (shipped epoch) none zeroAttrOut).1.Attr.Mode
              &&& S_IFMT = S_IFDIR)
      ∧ (nodeAt "missing").Getattr (shipped epoch) none zeroAttrOut = (zeroAttrOut, ENOENT) :=
  ⟨(Getattr_present_iff (shipped epoch) (nodeAt "file1") none zeroAttrOut).2.1
      { Filename := "file1", IsDirectory := false, Timestamp := epoch 2, Inode := 11,
        Size := 0, Data := testContent 49 } (by decide),
    (Getattr_present_iff (shipped epoch) (nodeAt "subdirectory1") none zeroAttrOut).2.1
      { Filename := "subdirectory1", IsDirectory := true, Timestamp := epoch 1, Inode := 1002,
        Size := 0, Data := [] } (by decide),
    (Getattr_present_iff (shipped epoch) (nodeAt "missing") none zeroAttrOut).2.2 (by decide)⟩

/-! ## The derivation pass -/

theorem mapGet_mem {V : Type} (m : GoMap V) (k : String) (v : V) (hget : mapGet m k = some v) :
    (k, v) ∈ m := by
  induction m with
  | nil => simp [mapGet] at hget
  | cons p rest ih =>
    obtain ⟨k1, v1⟩ := p
    by_cases hk : k = k1
    · subst hk
      simp [mapGet] at hget
      simp [hget]
    · simp [mapGet, hk] at hget
      exact List.mem_cons_of_mem _ (ih hget)

theorem initChildren_append (d : String) (cs1 cs2 : List indexedFile)
    (index : GoMap indexedFile) :
    initChildren d (cs1 ++ cs2) index = initChildren d cs2 (initChildren d cs1 index) := by
  induction cs1 generalizing index with
  | nil => rfl
  | cons c rest ih => simp [initChildren, ih]

theorem init_append (t1 t2 : GoMap (List indexedFile)) (index : GoMap indexedFile) :
    init (t1 ++ t2) index = init t2 (init t1 index) := by
  induction t1 generalizing index with
  | nil => rfl
  | cons p rest ih =>
    obtain ⟨d, cs⟩ := p
    simp [init, ih]

theorem initChildren_get_other (d : String) (cs : List indexedFile) (index : GoMap indexedFile)
    (k : String) (hk : ∀ c ∈ cs, filepath.Join d c.Filename ≠ k) :
    mapGet (initChildren d cs index) k = mapGet index k := by
  induction cs generalizing index with
  | nil => rfl
  | cons c rest ih =>
    have hc : ¬ k = filepath.Join d c.Filename := fun e => hk c (List.mem_cons_self _ _) e.symm
    simp only [initChildren]
    rw [ih _ (fun c2 h2 => hk c2 (List.mem_cons_of_mem _ h2)), mapGet_mapSet, if_neg hc]

theorem init_get_other (t : GoMap (List indexedFile)) (index : GoMap indexedFile) (k : String)
    (hk : ∀ p ∈ t, ∀ c ∈ p.2, filepath.Join p.1 c.Filename ≠ k) :
    mapGet (init t index) k = mapGet index k := by
  induction t generalizing index with
  | nil => rfl
  | cons p rest ih =>
    obtain ⟨d, cs⟩ := p
    simp only [init]
    rw [ih _ (fun p2 h2 => hk p2 (List.mem_cons_of_mem _ h2))]
    exact initChildren_get_other d cs index k (hk (d, cs) (List.mem_cons_self _ _))

theorem initChildren_keeps (d : String) (cs : List indexedFile) (index : GoMap indexedFile)
    (k : String) (hk : (mapGet index k).isSome = true) :
    (mapGet (initChildren d cs index) k).isSome = true := by
  induction cs generalizing index with
  | nil => exact hk
  | cons c rest ih =>
    simp only [initChildren]
    apply ih
    rw [mapGet_mapSet]
    split
    · rfl
    · exact hk

theorem init_keeps (t : GoMap (List indexedFile)) (index : GoMap indexedFile) (k : String)
    (hk : (mapGet index k).isSome = true) : (mapGet (init t index) k).isSome = true := by
  induction t generalizing index with
  | nil => exact hk
  | cons p rest ih =>
    obtain ⟨d, cs⟩ := p
    simp only [init]
    exact ih _ (initChildren_keeps d cs index k hk)

theorem initChildren_declares (d : String) (cs : List indexedFile) (index : GoMap indexedFile)
    (c : indexedFile) (hc : c ∈ cs) :
    (mapGet (initChildren d cs index) (filepath.Join d c.Filename)).isSome = true := by
  induction cs generalizing index with
  | nil => simp at hc
  | cons c1 rest ih =>
    simp only [initChildren]
    rcases List.mem_cons.mp hc with h1 | h1
    · subst h1
      apply initChildren_keeps
      simp [mapGet_mapSet]
    · exact ih _ h1

theorem init_declares (t : GoMap (List indexedFile)) (index : GoMap indexedFile) (d : String)
    (cs : List indexedFile) (c : indexedFile) (hd : (d, cs) ∈ t) (hc : c ∈ cs) :
    (mapGet (init t index) (filepath.Join d c.Filename)).isSome = true := by
  induction t generalizing index with
  | nil => simp at hd
  | cons p rest ih =>
    obtain ⟨d1, cs1⟩ := p
    simp only [init]
    rcases List.mem_cons.mp hd with h1 | h1
    · injection h1 with e1 e2
      subst e1
      subst e2
      exact init_keeps _ _ _ (initChildren_declares d cs index c hc)
    · exact ih _ h1

/-! ## Lookup -/

theorem NewInode_reserved (hn : HelloNode) (b : rawBridge) (ops : HelloNode) (id : StableAttr)
    (hres : id.Ino = 1 ∨ id.Ino = 2 ^ 64 - 1) : hn.NewInode b ops id = none := by
  have hr : id.Reserved = true := by
    unfold StableAttr.Reserved
    exact decide_eq_true hres
  simp only [HelloNode.NewInode, hr, if_true]

theorem NewInode_returns (hn : HelloNode) (b : rawBridge) (ops : HelloNode) (id : StableAttr)
    (h1 : id.Ino ≠ 1) (h2 : id.Ino ≠ 2 ^ 64 - 1) : ∃ r, hn.NewInode b ops id = some r := by
  have hres : id.Reserved = false := by
    unfold StableAttr.Reserved
    exact decide_eq_false (fun h => h.elim h1 h2)
  simp only [HelloNode.NewInode, hres, Bool.false_eq_true, if_false]
  split
  · exact ⟨_, rfl⟩
  · split <;> exact ⟨_, rfl⟩

theorem NewInode_fresh (hn : HelloNode) (b : rawBridge) (ops : HelloNode) (id : StableAttr)
    (h0 : id.Ino ≠ 0) (h1 : id.Ino ≠ 1) (h2 : id.Ino ≠ 2 ^ 64 - 1)
    (hops : ops.Inode.bridge = false) (hfresh : nodesGet b.nodes id.Ino = none) :
    hn.NewInode b ops id
      = some ({ ops with Inode := { relPath := "", rootPath := hn.Inode.rootPath,
                                    stableAttr :=
                                      { Mode := if id.Mode &&& S_IFMT = 0 then S_IFREG
                                                else id.Mode &&& S_IFMT,
                                        Gen := id.Gen, Ino := id.Ino },
                                    bridge := true } },
              { b with nodes :=
                  (id.Ino, { ops with Inode := { relPath := "", rootPath := hn.Inode.rootPath,
                                                 stableAttr :=
                                                   { Mode := if id.Mode &&& S_IFMT = 0 then S_IFREG
                                                             else id.Mode &&& S_IFMT,
                                                     Gen := id.Gen, Ino := id.Ino },
                                                 bridge := true } }) :: b.nodes }) := by
  have hres : id.Reserved = false := by
    unfold StableAttr.Reserved
    exact decide_eq_false (fun h => h.elim h1 h2)
  simp [HelloNode.NewInode, hres, hops, h0, hfresh]

/-- C6, as stated, fails: in a tree whose root declares the child `r` with the
reserved inode number 1, after `init`, `Getattr` on `/r` succeeds but
`Lookup("/", "r")` panics inside `NewInode` instead of succeeding. -/
theorem Lookup_panics_on_reserved_Inode :
    oddInodes.fileIndex = init oddInodes.tree (fileIndex epoch)
      ∧ (mapGet oddInodes.tree "/").map (fun cs => cs.map fun c => (c.Filename, c.Inode))
          = some [("r", 1), ("z", 0), ("l1", 5), ("l2", 5)]
      ∧ (nodeAt "").currentPath = "/"
      ∧ (nodeAt "r").currentPath = filepath.Join "/" "r"
      ∧ ((nodeAt "r").Getattr oddInodes none zeroAttrOut).2 = OK
      ∧ (nodeAt "").Lookup oddInodes mountBridge "r" zeroEntryOut = none := by
  decide

/-- C6, amended: for every tree, after `init` has run, for every directory `d`
that is a key of the tree and every child `c` of `tree[d]` such that the entry
stored at `join(d, c.Filename)` does not carry a reserved inode number (1 or
`2^64 - 1`), `Lookup` on the node at `d` with the name of `c` succeeds on every
bridge state, and so does `Getattr` on the node at `join(d, c.Filename)`; both
write the attributes of the same entry, so the two results agree on every
field (the three fields that `setAttributes` never writes keep the value of
the respective output record). -/
theorem Lookup_agrees_with_Getattr (t : GoMap (List indexedFile)) (index0 : GoMap indexedFile)
    (b : rawBridge) (d : String) (children : List indexedFile) (c : indexedFile)
    (hn hn2 : HelloNode) (f : Option readOnlyFile) (out : EntryOut) (out2 : AttrOut)
    (hd : mapGet t d = some children) (hc : c ∈ children) (hpath : hn.currentPath = d)
    (hpath2 : hn2.currentPath = filepath.Join d c.Filename)
    (hres : ∀ e : indexedFile, mapGet (init t index0) (filepath.Join d c.Filename) = some e →
      e.Inode ≠ 1 ∧ e.Inode ≠ 2 ^ 64 - 1) :
    ∃ (out1 : EntryOut) (child : HelloNode) (b1 : rawBridge),
      hn.Lookup ⟨init t index0, t⟩ b c.Filename out = some ((out1, some child, OK), b1)
        ∧ (hn2.Getattr ⟨init t index0, t⟩ f out2).2 = OK
        ∧ (∃ entry : indexedFile, out1.Attr = entry.setAttributes out.Attr
            ∧ (hn2.Getattr ⟨init t index0, t⟩ f out2).1.Attr = entry.setAttributes out2.Attr)
        ∧ out1.Attr
            = { (hn2.Getattr ⟨init t index0, t⟩ f out2).1.Attr with
                Nlink := out.Attr.Nlink, Rdev := out.Attr.Rdev, Padding := out.Attr.Padding }
        ∧ (out.Attr = out2.Attr →
            out1.Attr = (hn2.Getattr ⟨init t index0, t⟩ f out2).1.Attr) := by
  have hsome := init_declares t index0 d children c (mapGet_mem t d children hd) hc
  obtain ⟨entry, he⟩ := Option.isSome_iff_exists.mp hsome
  obtain ⟨h1, h2⟩ := hres entry he
  obtain ⟨⟨child, b1⟩, hnew⟩ := NewInode_returns hn b (NewHelloNode (filepath.Join d c.Filename))
    { Mode := entry.mode, Gen := 1, Ino := entry.Inode } h1 h2
  have hL : hn.Lookup ⟨init t index0, t⟩ b c.Filename out
      = some (({ out with Attr := entry.setAttributes out.Attr }, some child, OK), b1) := by
    simp [HelloNode.Lookup, hpath, he, hnew]
  have hG : hn2.Getattr ⟨init t index0, t⟩ f out2
      = ({ out2 with Attr := entry.setAttributes out2.Attr }, OK) := by
    simp [HelloNode.Getattr, hpath2, he]
  refine ⟨{ out with Attr := entry.setAttributes out.Attr }, child, b1, hL, ?_⟩
  rw [hG]
  refine ⟨rfl, ⟨entry, rfl, rfl⟩, rfl, ?_⟩
  intro hout
  simp [hout]

/-- In the shipped hierarchy, `Lookup("/", "file1")` succeeds and writes the
attributes that `Getattr("/file1")` writes. -/
theorem Lookup_agrees_with_Getattr_witness :
    ∃ (out1 : EntryOut) (child : HelloNode) (b1 : rawBridge),
      (nodeAt "").Lookup (shipped epoch) mountBridge "file1" zeroEntryOut
          = some ((out1, some child, OK), b1)
        ∧ out1.Attr = ((nodeAt "file1").Getattr (shipped epoch) none zeroAttrOut).1.Attr := by
  obtain ⟨out1, child, b1, h1, _, _, _, h5⟩ :=
    Lookup_agrees_with_Getattr (tree epoch) (fileIndex epoch) mountBridge "/"
      [{ Filename := "subdirectory1", IsDirectory := true, Timestamp := epoch 1, Inode := 1002,
         Size := 0, Data := [] },
       { Filename := "file1", IsDirectory := false, Timestamp := epoch 2, Inode := 11,
         Size := 0, Data := testContent 49 },
       { Filename := "file2", IsDirectory := false, Timestamp := epoch 3, Inode := 22,
         Size := 0, Data := testContent 50 },
       { Filename := "file3", IsDirectory := false, Timestamp := epoch 4, Inode := 33,
         Size := 0, Data := testContent 51 }]
      { Filename := "file1", IsDirectory := false, Timestamp := epoch 2, Inode := 11,
        Size := 0, Data := testContent 49 }
      (nodeAt "") (nodeAt "file1") none zeroEntryOut zeroAttrOut
      (by decide) (by decide) (by decide) (by decide)
      (by
        intro e he
        have hfile : mapGet (init (tree epoch) (fileIndex epoch)) (filepath.Join "/" "file1")
            = some { Filename := "file1", IsDirectory := false, Timestamp := epoch 2,
                     Inode := 11, Size := 0, Data := testContent 49 } := by decide
        rw [hfile] at he
        cases he
        decide)
  exact ⟨out1, child, b1, h1, h5 rfl⟩

/-- C7: when `join(p, n)` is not a key of the flat index, `Lookup(p, n)` returns
ENOENT and a nil child node, no inode is made or registered (the bridge state
is what it was), and the output record is exactly what it was before the
call. -/
theorem Lookup_absent (h : Hierarchy) (b : rawBridge) (hn : HelloNode) (name : String)
    (out : EntryOut)
    (habs : mapGet h.fileIndex (filepath.Join hn.currentPath name) = none) :
    hn.Lookup h b name out = some ((out, none, ENOENT), b) := by
  simp [HelloNode.Lookup, habs]

/-- Scenario 3 of the specification: `Lookup("/", "missing")`. -/
theorem Lookup_absent_witness :
    (nodeAt "").currentPath = "/"
      ∧ mapGet (shipped epoch).fileIndex (filepath.Join (nodeAt "").currentPath "missing") = none
      ∧ (nodeAt "").Lookup (shipped epoch) mountBridge "missing" zeroEntryOut
          = some ((zeroEntryOut, none, ENOENT), mountBridge) :=
  ⟨by decide, by decide,
    Lookup_absent (shipped epoch) mountBridge (nodeAt "") "missing" zeroEntryOut (by decide)⟩

/-! ## Open -/

theorem S_IFREG_bit_of_typeTag (mode : Nat) (hreg : mode &&& S_IFMT = S_IFREG) :
    mode &&& S_IFREG ≠ 0 := by
  have h1 : mode &&& S_IFREG = (mode &&& S_IFMT) &&& S_IFREG := by
    rw [Nat.land_assoc]
    rfl
  rw [h1, hreg]
  decide

/-- What `Open` does in terms of its own test: it fails with ENOENT exactly
when `mode & S_IFREG == 0` or the path is not a key of the flat index; otherwise
it returns status 0, flags 0 and a read-only handle over the entry's payload;
whenever it fails the handle is nil.  Every mode with type tag `S_IFREG` passes
the test, but so does every other mode in which that bit is set. -/
theorem Open_by_bit_test (h : Hierarchy) (hn : HelloNode) (mode : Nat) :
    ((hn.Open h mode).2.2 = ENOENT
        ↔ (mode &&& S_IFREG = 0 ∨ mapGet h.fileIndex hn.currentPath = none))
      ∧ (∀ entry, mode &&& S_IFREG ≠ 0 → mapGet h.fileIndex hn.currentPath = some entry →
          hn.Open h mode = (some { File := { data := entry.Data } }, 0, 0))
      ∧ ((hn.Open h mode).2.2 ≠ 0 → (hn.Open h mode).1 = none)
      ∧ (mode &&& S_IFMT = S_IFREG → mode &&& S_IFREG ≠ 0) := by
  refine ⟨?_, ?_, ?_, S_IFREG_bit_of_typeTag mode⟩
  · by_cases hm : mode &&& S_IFREG = 0
    · simp [HelloNode.Open, hm]
    · cases hget : mapGet h.fileIndex hn.currentPath with
      | none => simp [HelloNode.Open, hm, hget]
      | some entry =>
        have hne : (0 : Errno) ≠ ENOENT := by decide
        simp [HelloNode.Open, hm, hget, hne]
  · intro entry hm hget
    simp [HelloNode.Open, hm, hget]
  · by_cases hm : mode &&& S_IFREG = 0
    · simp [HelloNode.Open, hm]
    · cases hget : mapGet h.fileIndex hn.currentPath with
      | none => simp [HelloNode.Open, hm, hget]
      | some entry => simp [HelloNode.Open, hm, hget]

/-- C8: the mode test of `Open` is the bit test `mode & S_IFREG == 0`, not a
comparison of the type tag: for a path present in the flat index and a
requested mode that does not indicate a regular file (type tag other than
`S_IFREG`) but has the `S_IFREG` bit set, such as the symbolic-link tag 0120000,
`Open` returns a handle over the payload with status 0, where the claim
says it fails with ENOENT and returns no handle. -/
theorem Open_accepts_non_regular_mode (h : Hierarchy) (hn : HelloNode) (mode : Nat)
    (entry : indexedFile) (_htag : mode &&& S_IFMT ≠ S_IFREG) (hbit : mode &&& S_IFREG ≠ 0)
    (hfound : mapGet h.fileIndex hn.currentPath = some entry) :
    hn.Open h mode = (some { File := { data := entry.Data } }, 0, 0)
      ∧ (hn.Open h mode).2.2 ≠ ENOENT := by
  have hopen : hn.Open h mode = (some { File := { data := entry.Data } }, 0, 0) := by
    simp [HelloNode.Open, hbit, hfound]
  rw [hopen]
  have hne : (0 : Errno) ≠ ENOENT := by decide
  exact ⟨rfl, hne⟩

/-- In the shipped hierarchy `Open("/file1", 0120000)`, a request with the
symbolic-link type tag, returns a handle over the 16 bytes of `/file1`. -/
theorem Open_accepts_non_regular_mode_witness :
    0o120000 &&& S_IFMT = 0o120000 ∧ 0o120000 ≠ S_IFREG
      ∧ (nodeAt "file1").Open (shipped epoch) 0o120000
          = (some { File := { data := testContent 49 } }, 0, 0) :=
  ⟨by decide, by decide,
    (Open_accepts_non_regular_mode (shipped epoch) (nodeAt "file1") 0o120000
      { Filename := "file1", IsDirectory := false, Timestamp := epoch 2, Inode := 11,
        Size := 0, Data := testContent 49 } (by decide) (by decide) (by decide)).1⟩

/-- C9, as stated, fails: `Open` of the existing file `/file1` with mode 0, which
does not designate a regular file, returns ENOENT, not EINVAL. -/
theorem Open_bad_mode_not_EINVAL :
    (0 &&& S_IFREG = 0)
      ∧ (nodeAt "file1").Open (shipped epoch) 0 = (none, 0, ENOENT)
      ∧ ((nodeAt "file1").Open (shipped epoch) 0).2.2 ≠ EINVAL
      ∧ ((nodeAt "file1").Open (shipped epoch) S_IFREG).2.2 = OK := by
  decide

/-- C9, amended: when `Open` is called with a mode that does not designate a
regular file (`mode & S_IFREG == 0`), it fails with ENOENT and a nil handle,
whether or not the path is in the flat index. -/
theorem Open_bad_mode_ENOENT (h : Hierarchy) (hn : HelloNode) (mode : Nat)
    (hm : mode &&& S_IFREG = 0) : hn.Open h mode = (none, 0, ENOENT) := by
  simp [HelloNode.Open, hm]

/-- The directory type tag `S_IFDIR` as the mode, on an existing and on an
absent path. -/
theorem Open_bad_mode_ENOENT_witness :
    S_IFDIR &&& S_IFREG = 0
      ∧ (nodeAt "file1").Open (shipped epoch) S_IFDIR = (none, 0, ENOENT)
      ∧ (nodeAt "missing").Open (shipped epoch) S_IFDIR = (none, 0, ENOENT) :=
  ⟨by decide, Open_bad_mode_ENOENT (shipped epoch) (nodeAt "file1") S_IFDIR (by decide),
    Open_bad_mode_ENOENT (shipped epoch) (nodeAt "missing") S_IFDIR (by decide)⟩

/-! ## Duplicate declarations -/

/-- C10, as stated, fails: `init` completes on a tree that declares `/a` twice
and keeps the second declaration; on a tree in which two directories declare
`/x/y` the entry kept depends on the order in which the keys are visited; a
child named `.` replaces the root entry. -/
theorem init_overwrites :
    mapGet (init twiceDeclared (fileIndex epoch)) "/a" = some entryA2
      ∧ entryA1 ≠ entryA2
      ∧ mapGet (init crossDeclared (fileIndex epoch)) "/x/y" = some entryY
      ∧ mapGet (init crossDeclared.reverse (fileIndex epoch)) "/x/y" = some entryXY
      ∧ entryXY ≠ entryY
      ∧ mapGet (init rootRedeclared (fileIndex epoch)) "/" = some entryDot := by
  decide

/-- C10, amended: `init` never aborts; it returns a flat index in which a full
path that is declared more than once maps to the declaration visited last:
a declaration `c` under `d` with no later declaration of the same full path
(in the rest of its list or under a directory visited later) is the entry
of `join(d, c.Filename)`. -/
theorem init_last_declaration_wins (t pre post : GoMap (List indexedFile))
    (index : GoMap indexedFile) (d : String) (cs1 cs2 : List indexedFile) (c : indexedFile)
    (ht : t = pre ++ (d, cs1 ++ c :: cs2) :: post)
    (hcs2 : ∀ c2 ∈ cs2, filepath.Join d c2.Filename ≠ filepath.Join d c.Filename)
    (hpost : ∀ p ∈ post, ∀ c2 ∈ p.2, filepath.Join p.1 c2.Filename ≠ filepath.Join d c.Filename) :
    mapGet (init t index) (filepath.Join d c.Filename) = some c := by
  subst ht
  rw [init_append]
  simp only [init]
  rw [init_get_other _ _ _ hpost, initChildren_append]
  simp only [initChildren]
  rw [initChildren_get_other _ _ _ _ hcs2, mapGet_mapSet, if_pos rfl]

/-- The tree that declares `/a` twice: the second declaration is the entry. -/
theorem init_last_declaration_wins_witness :
    twiceDeclared = [] ++ ("/", [entryA1] ++ entryA2 :: []) :: []
      ∧ filepath.Join "/" entryA1.Filename = filepath.Join "/" entryA2.Filename
      ∧ mapGet (init twiceDeclared (fileIndex epoch)) (filepath.Join "/" entryA2.Filename)
          = some entryA2 :=
  ⟨rfl, by decide,
    init_last_declaration_wins twiceDeclared [] [] (fileIndex epoch) "/" [entryA1] [] entryA2 rfl
      (by simp) (by simp)⟩

/-! ## The key set of the flat index -/

theorem mem_declaredPaths (t : GoMap (List indexedFile)) (k : String) :
    k ∈ declaredPaths t ↔ ∃ p ∈ t, ∃ c ∈ p.2, filepath.Join p.1 c.Filename = k := by
  induction t with
  | nil => simp [declaredPaths]
  | cons p rest ih =>
    obtain ⟨d, cs⟩ := p
    simp only [declaredPaths, List.mem_append, List.mem_map, ih, List.mem_cons]
    constructor
    · rintro (⟨c, hc, rfl⟩ | ⟨p, hp, c, hc, rfl⟩)
      · exact ⟨(d, cs), Or.inl rfl, c, hc, rfl⟩
      · exact ⟨p, Or.inr hp, c, hc, rfl⟩
    · rintro ⟨p, hp | hp, c, hc, rfl⟩
      · subst hp
        exact Or.inl ⟨c, hc, rfl⟩
      · exact Or.inr ⟨p, hp, c, hc, rfl⟩

theorem initChildren_isSome_iff (d : String) (cs : List indexedFile) (index : GoMap indexedFile)
    (k : String) :
    (mapGet (initChildren d cs index) k).isSome = true
      ↔ (mapGet index k).isSome = true ∨ ∃ c ∈ cs, filepath.Join d c.Filename = k := by
  induction cs generalizing index with
  | nil => simp [initChildren]
  | cons c rest ih =>
    simp only [initChildren, ih, mapGet_mapSet, List.mem_cons]
    constructor
    · rintro (h1 | ⟨c2, hc2, rfl⟩)
      · by_cases hk : k = filepath.Join d c.Filename
        · exact Or.inr ⟨c, Or.inl rfl, hk.symm⟩
        · rw [if_neg hk] at h1
          exact Or.inl h1
      · exact Or.inr ⟨c2, Or.inr hc2, rfl⟩
    · rintro (h1 | ⟨c2, hc2 | hc2, rfl⟩)
      · by_cases hk : k = filepath.Join d c.Filename
        · rw [if_pos hk]
          exact Or.inl rfl
        · rw [if_neg hk]
          exact Or.inl h1
      · subst hc2
        rw [if_pos rfl]
        exact Or.inl rfl
      · exact Or.inr ⟨c2, hc2, rfl⟩

theorem init_isSome_iff (t : GoMap (List indexedFile)) (index : GoMap indexedFile) (k : String) :
    (mapGet (init t index) k).isSome = true
      ↔ (mapGet index k).isSome = true ∨ k ∈ declaredPaths t := by
  induction t generalizing index with
  | nil => simp [init, declaredPaths]
  | cons p rest ih =>
    obtain ⟨d, cs⟩ := p
    simp only [init, ih, initChildren_isSome_iff, declaredPaths, List.mem_append, List.mem_map]
    exact or_assoc

theorem initChildren_get_of_nodup (d : String) (cs : List indexedFile)
    (index : GoMap indexedFile) (c : indexedFile)
    (hnd : (cs.map (fun child => filepath.Join d child.Filename)).Nodup) (hc : c ∈ cs) :
    mapGet (initChildren d cs index) (filepath.Join d c.Filename) = some c := by
  induction cs generalizing index with
  | nil => simp at hc
  | cons c1 rest ih =>
    simp only [List.map_cons, List.nodup_cons, List.mem_map, not_exists, not_and] at hnd
    simp only [initChildren]
    rcases List.mem_cons.mp hc with h1 | h1
    · subst h1
      rw [initChildren_get_other _ _ _ _ (fun c2 h2 => hnd.1 c2 h2), mapGet_mapSet, if_pos rfl]
    · exact ih _ hnd.2 h1

theorem init_get_of_nodup (t : GoMap (List indexedFile)) (index : GoMap indexedFile)
    (d : String) (cs : List indexedFile) (c : indexedFile) (hnd : (declaredPaths t).Nodup)
    (hd : (d, cs) ∈ t) (hc : c ∈ cs) :
    mapGet (init t index) (filepath.Join d c.Filename) = some c := by
  induction t generalizing index with
  | nil => simp at hd
  | cons p rest ih =>
    obtain ⟨d1, cs1⟩ := p
    simp only [declaredPaths] at hnd
    have hnd1 := (List.nodup_append.mp hnd).1
    have hnd2 := (List.nodup_append.mp hnd).2.1
    have hdis := (List.nodup_append.mp hnd).2.2
    simp only [init]
    rcases List.mem_cons.mp hd with h1 | h1
    · injection h1 with e1 e2
      subst e1
      subst e2
      have hin : filepath.Join d c.Filename
          ∈ cs.map (fun child => filepath.Join d child.Filename) :=
        List.mem_map.mpr ⟨c, hc, rfl⟩
      have hout : ∀ p ∈ rest, ∀ c2 ∈ p.2,
          filepath.Join p.1 c2.Filename ≠ filepath.Join d c.Filename := by
        intro p hp c2 hc2 heq
        exact hdis hin ((mem_declaredPaths rest _).mpr ⟨p, hp, c2, hc2, heq⟩)
      rw [init_get_other _ _ _ hout]
      exact initChildren_get_of_nodup d cs index c hnd1 hc
    · exact ih _ hnd2 h1

/-- C11: for every tree, the keys of the flat index after `init`, started from
the declared index that holds only `/`, are exactly `/` and the joined paths
`join(parentPath, child.Filename)` of the children of the tree; and when no
full path is declared twice, each joined path maps to the child that declared
it. -/
theorem init_key_set (t : GoMap (List indexedFile)) (now : Nat → Time) :
    (∀ k, (mapGet (init t (fileIndex now)) k).isSome = true
        ↔ (k = "/" ∨ ∃ p ∈ t, ∃ c ∈ p.2, k = filepath.Join p.1 c.Filename))
      ∧ ((declaredPaths t).Nodup →
          ∀ p ∈ t, ∀ c ∈ p.2,
            mapGet (init t (fileIndex now)) (filepath.Join p.1 c.Filename) = some c) := by
  constructor
  · intro k
    rw [init_isSome_iff, mem_declaredPaths]
    have hroot : (mapGet (fileIndex now) k).isSome = true ↔ k = "/" := by
      by_cases hk : k = "/" <;> simp [fileIndex, mapGet, hk]
    rw [hroot]
    constructor
    · rintro (h1 | ⟨p, hp, c, hc, rfl⟩)
      · exact Or.inl h1
      · exact Or.inr ⟨p, hp, c, hc, rfl⟩
    · rintro (h1 | ⟨p, hp, c, hc, rfl⟩)
      · exact Or.inl h1
      · exact Or.inr ⟨p, hp, c, hc, rfl⟩
  · intro hnd p hp c hc
    exact init_get_of_nodup t (fileIndex now) p.1 p.2 c hnd hp hc

/-- In the shipped tree no full path is declared twice; `/subdirectory1/file4`
is a key that maps to the declared `file4`, and `/file4` is not a key. -/
theorem init_key_set_witness :
    (declaredPaths (tree epoch)).Nodup
      ∧ mapGet (init (tree epoch) (fileIndex epoch)) (filepath.Join "/subdirectory1" "file4")
          = some { Filename := "file4", IsDirectory := false, Timestamp := epoch 5, Inode := 44,
                   Size := 0, Data := testContent 52 }
      ∧ ¬ (mapGet (init (tree epoch) (fileIndex epoch)) "/file4").isSome = true :=
  ⟨by decide,
    (init_key_set (tree epoch) epoch).2 (by decide)
      ("/subdirectory1",
        [{ Filename := "file4", IsDirectory := false, Timestamp := epoch 5, Inode := 44,
           Size := 0, Data := testContent 52 },
         { Filename := "file5", IsDirectory := false, Timestamp := epoch 6, Inode := 55,
           Size := 0, Data := testContent 53 },
         { Filename := "file6", IsDirectory := false, Timestamp := epoch 7, Inode := 66,
           Size := 0, Data := testContent 54 }])
      (by decide)
      { Filename := "file4", IsDirectory := false, Timestamp := epoch 5, Inode := 44,
        Size := 0, Data := testContent 52 }
      (by decide),
    by decide⟩

/-! ## Readdir and Opendir -/

/-- C12: `Readdir` on a node whose path is not a key of the tree returns a nil
stream and ENOENT; otherwise it returns OK and a list with exactly
`len(tree[p])` entries, the `i`-th of which carries the `Filename`, `mode()` and
`Inode` of the `i`-th child, in the declared order. -/
theorem Readdir_lists_children (h : Hierarchy) (hn : HelloNode) :
    (mapGet h.tree hn.currentPath = none → hn.Readdir h = (none, ENOENT))
      ∧ (∀ files : List indexedFile, mapGet h.tree hn.currentPath = some files →
          ∃ entries : List DirEntry, hn.Readdir h = (some entries, OK)
            ∧ entries.length = files.length
            ∧ ∀ i : Nat, entries[i]? = (files[i]?).map fun (file : indexedFile) =>
                ({ Name := file.Filename, Mode := file.mode, Ino := file.Inode } : DirEntry)) := by
  constructor
  · intro hnone
    simp [HelloNode.Readdir, hnone]
  · intro files hsome
    refine ⟨files.map fun file =>
      ({ Name := file.Filename, Mode := file.mode, Ino := file.Inode } : DirEntry), ?_, ?_, ?_⟩
    · simp [HelloNode.Readdir, hsome]
    · simp
    · intro i
      simp

/-- In the shipped hierarchy `Readdir("/subdirectory1")` lists `file4`, `file5`
and `file6` in that order, and `Readdir("/file1")` fails. -/
theorem Readdir_lists_children_witness :
    (nodeAt "subdirectory1").Readdir (shipped epoch)
        = (some [{ Name := "file4", Mode := 0o644 ||| S_IFREG, Ino := 44 },
                 { Name := "file5", Mode := 0o644 ||| S_IFREG, Ino := 55 },
                 { Name := "file6", Mode := 0o644 ||| S_IFREG, Ino := 66 }], OK)
      ∧ (nodeAt "file1").Readdir (shipped epoch) = (none, ENOENT) :=
  ⟨by decide, (Readdir_lists_children (shipped epoch) (nodeAt "file1")).1 (by decide)⟩

/-- C13: `Opendir` on a node succeeds exactly when the node's path is a key of
the tree and fails with ENOENT otherwise; in the shipped hierarchy it succeeds
exactly for `/` and `/subdirectory1`, so it fails with ENOENT for every
file path and every absent path. -/
theorem Opendir_iff_tree_key (h : Hierarchy) (hn : HelloNode) :
    (hn.Opendir h = OK ↔ ∃ files, mapGet h.tree hn.currentPath = some files)
      ∧ (hn.Opendir h ≠ OK → hn.Opendir h = ENOENT)
      ∧ (∀ now, h = shipped now →
          (hn.Opendir h = OK ↔ (hn.currentPath = "/" ∨ hn.currentPath = "/subdirectory1"))) := by
  have hne : ENOENT ≠ OK := by decide
  refine ⟨?_, ?_, ?_⟩
  · cases hget : mapGet h.tree hn.currentPath <;> simp [HelloNode.Opendir, hget, hne]
  · cases hget : mapGet h.tree hn.currentPath <;> simp [HelloNode.Opendir, hget]
  · intro now hs
    subst hs
    by_cases h1 : hn.currentPath = "/"
    · simp [HelloNode.Opendir, shipped, tree, mapGet, h1]
    · by_cases h2 : hn.currentPath = "/subdirectory1"
      · simp [HelloNode.Opendir, shipped, tree, mapGet, h2]
      · simp [HelloNode.Opendir, shipped, tree, mapGet, h1, h2, hne]

/-- In the shipped hierarchy `Opendir` succeeds on `/` and `/subdirectory1` and
fails with ENOENT on the file `/file1` and on the absent `/missing`. -/
theorem Opendir_iff_tree_key_witness :
    (nodeAt "").Opendir (shipped epoch) = OK
      ∧ (nodeAt "subdirectory1").Opendir (shipped epoch) = OK
      ∧ (nodeAt "file1").Opendir (shipped epoch) = ENOENT
      ∧ (nodeAt "missing").Opendir (shipped epoch) = ENOENT :=
  ⟨((Opendir_iff_tree_key (shipped epoch) (nodeAt "")).2.2 epoch rfl).mpr (by decide),
    ((Opendir_iff_tree_key (shipped epoch) (nodeAt "subdirectory1")).2.2 epoch rfl).mpr
      (by decide),
    (Opendir_iff_tree_key (shipped epoch) (nodeAt "file1")).2.1 (by decide),
    (Opendir_iff_tree_key (shipped epoch) (nodeAt "missing")).2.1 (by decide)⟩

/-! ## Successful Lookup -/

/-- C14, as stated, fails: in the shipped hierarchy `Lookup("/", "subdirectory1")`
writes the mode 040755 and registers the mode 040000; for an entry with the
inode number 0 the registered number is the automatic one; for an entry with
the reserved inode number 1 `Lookup` panics; and when a live inode already
has the entry's inode number, that inode, bound to another path, is returned
and the new child is ignored. -/
theorem Lookup_registers_other_record :
    ((nodeAt "").Lookup (shipped epoch) mountBridge "subdirectory1" zeroEntryOut).map
        (fun r => (r.1.1.Attr.Mode, r.1.2.1.map fun child => child.Inode.stableAttr.Mode))
        = some (0o40755, some 0o40000)
      ∧ ((nodeAt "").Lookup oddInodes mountBridge "z" zeroEntryOut).map
          (fun r => (r.1.1.Attr.Ino, r.1.2.1.map fun child => child.Inode.stableAttr.Ino))
          = some (0, some (2 ^ 63))
      ∧ (nodeAt "").Lookup oddInodes mountBridge "r" zeroEntryOut = none
      ∧ (((nodeAt "").Lookup oddInodes mountBridge "l1" zeroEntryOut).bind
            fun r1 => ((nodeAt "").Lookup oddInodes r1.2 "l2" zeroEntryOut).map
              fun r2 => r2.1.2.1.map fun child => child.path)
          = some (some "/l1")
      ∧ filepath.Join (nodeAt "").currentPath "l2" = "/l2" := by
  decide

/-- C14, amended: when `join(p, n)` is a key of the flat index with entry `e`,
`Lookup(p, n)` binds a new child node to the path `join(p, n)` and hands it to
`NewInode` with the stable identity record `Mode = e.mode()`, `Gen = 1`,
`Ino = e.Inode`, whose `Ino` and `Mode` are the ones written to the output
attributes.  `Lookup` panics when `e.Inode` is reserved (1 or `2^64 - 1`) and
succeeds otherwise.  When `e.Inode` is neither reserved nor 0 and no live
inode has that number, the inode returned and registered is the new child,
with `Gen = 1`, `Ino = e.Inode` and `Mode = e.mode() & S_IFMT`: the type tag of the
written mode, without its permission bits. -/
theorem Lookup_present (h : Hierarchy) (b : rawBridge) (hn : HelloNode) (name : String)
    (out : EntryOut) (e : indexedFile)
    (hfound : mapGet h.fileIndex (filepath.Join hn.currentPath name) = some e) :
    hn.Lookup h b name out
        = (hn.NewInode b (NewHelloNode (filepath.Join hn.currentPath name))
            { Mode := e.mode, Gen := 1, Ino := e.Inode }).map
          (fun r => (({ out with Attr := e.setAttributes out.Attr }, some r.1, OK), r.2))
      ∧ (NewHelloNode (filepath.Join hn.currentPath name)).path
          = filepath.Join hn.currentPath name
      ∧ (e.setAttributes out.Attr).Ino = e.Inode
      ∧ (e.setAttributes out.Attr).Mode = e.mode
      ∧ (e.Inode = 1 ∨ e.Inode = 2 ^ 64 - 1 → hn.Lookup h b name out = none)
      ∧ (e.Inode ≠ 1 → e.Inode ≠ 2 ^ 64 - 1 →
          ∃ (child : HelloNode) (b1 : rawBridge), hn.Lookup h b name out
            = some (({ out with Attr := e.setAttributes out.Attr }, some child, OK), b1))
      ∧ (e.Inode ≠ 0 → e.Inode ≠ 1 → e.Inode ≠ 2 ^ 64 - 1 → nodesGet b.nodes e.Inode = none →
          ∃ (child : HelloNode) (b1 : rawBridge),
            hn.Lookup h b name out
                = some (({ out with Attr := e.setAttributes out.Attr }, some child, OK), b1)
              ∧ child.path = filepath.Join hn.currentPath name
              ∧ child.Inode.stableAttr = { Mode := e.mode &&& S_IFMT, Gen := 1, Ino := e.Inode }
              ∧ nodesGet b1.nodes e.Inode = some child
              ∧ child.Inode.stableAttr.Ino = (e.setAttributes out.Attr).Ino
              ∧ child.Inode.stableAttr.Mode = (e.setAttributes out.Attr).Mode &&& S_IFMT) := by
  have hcall : hn.Lookup h b name out
      = (hn.NewInode b (NewHelloNode (filepath.Join hn.currentPath name))
          { Mode := e.mode, Gen := 1, Ino := e.Inode }).map
        (fun r => (({ out with Attr := e.setAttributes out.Attr }, some r.1, OK), r.2)) := by
    simp only [HelloNode.Lookup, hfound]
    cases hn.NewInode b (NewHelloNode (filepath.Join hn.currentPath name))
      { Mode := e.mode, Gen := 1, Ino := e.Inode } <;> rfl
  refine ⟨hcall, rfl, rfl, rfl, ?_, ?_, ?_⟩
  · intro hres
    rw [hcall, NewInode_reserved _ _ _ _ hres]
    rfl
  · intro h1 h2
    obtain ⟨⟨child, b1⟩, hnew⟩ := NewInode_returns hn b
      (NewHelloNode (filepath.Join hn.currentPath name))
      { Mode := e.mode, Gen := 1, Ino := e.Inode } h1 h2
    exact ⟨child, b1, by rw [hcall, hnew]; rfl⟩
  · intro h0 h1 h2 hfresh
    have htag : e.mode &&& S_IFMT ≠ 0 := by
      rw [mode_typeTag]
      split <;> decide
    have hnew := NewInode_fresh hn b (NewHelloNode (filepath.Join hn.currentPath name))
      { Mode := e.mode, Gen := 1, Ino := e.Inode } h0 h1 h2 rfl hfresh
    simp only [if_neg htag] at hnew
    refine ⟨_, _, by rw [hcall, hnew]; rfl, rfl, rfl, ?_, rfl, rfl⟩
    simp [nodesGet]

/-- In the shipped hierarchy `Lookup("/", "subdirectory1")` on the bridge right
after mounting returns and registers a new child bound to `/subdirectory1` with
generation 1, inode 1002 and the directory type tag. -/
theorem Lookup_present_witness :
    ∃ (child : HelloNode) (b1 : rawBridge),
      ((nodeAt "").Lookup (shipped epoch) mountBridge "subdirectory1" zeroEntryOut).map
          (fun r => (r.1.2, r.2)) = some ((some child, OK), b1)
        ∧ child.path = "/subdirectory1"
        ∧ child.Inode.stableAttr = { Mode := S_IFDIR, Gen := 1, Ino := 1002 }
        ∧ nodesGet b1.nodes 1002 = some child := by
  obtain ⟨child, b1, h1, h2, h3, h4, _⟩ :=
    (Lookup_present (shipped epoch) mountBridge (nodeAt "") "subdirectory1" zeroEntryOut
      { Filename := "subdirectory1", IsDirectory := true, Timestamp := epoch 1, Inode := 1002,
        Size := 0, Data := [] } (by decide)).2.2.2.2.2.2
      (by decide) (by decide) (by decide) (by decide)
  refine ⟨child, b1, ?_, ?_, ?_, h4⟩
  · rw [h1]
    rfl
  · rw [h2]
    decide
  · rw [h3]
    decide

/-! ## Negative offsets -/

/-- C15: the offset is not clamped: for a path present in the flat index and
every negative offset, the slice expression `d[off:end]` is out of range and
`Read` panics, where the claim promises a result with status OK. -/
theorem Read_negative_offset_panics (h : Hierarchy) (hn : HelloNode)
    (fh : Option readOnlyFile) (entry : indexedFile) (dest : List UInt8) (off : Int)
    (hfound : mapGet h.fileIndex hn.currentPath = some entry) (hneg : off < 0) :
    hn.Read h fh dest off = none := by
  have h0 : ¬ (0 ≤ off) := by omega
  simp [HelloNode.Read, hfound, sliceBytes, h0]

/-- With payload `"hi\n"`, `Read` of one byte at offset -1 panics. -/
theorem Read_negative_offset_panics_witness :
    mapGet scenario1.fileIndex (nodeAt "a").currentPath = some fileA
      ∧ (nodeAt "a").Read scenario1 none [0] (-1) = none :=
  ⟨by decide,
    Read_negative_offset_panics scenario1 (nodeAt "a") none fileA [0] (-1) (by decide)
      (by decide)⟩

/-! ## Invariants of the shipped hierarchy -/

theorem shippedReversed_fileIndex (now : Nat → Time) :
    (shippedReversed now).fileIndex =
      [("/", { Filename := "", IsDirectory := true, Timestamp := now 0, Inode := 1001,
               Size := 0, Data := [] }),
       ("/subdirectory1/file4", { Filename := "file4", IsDirectory := false, Timestamp := now 5,
                                  Inode := 44, Size := 0, Data := testContent 52 }),
       ("/subdirectory1/file5", { Filename := "file5", IsDirectory := false, Timestamp := now 6,
                                  Inode := 55, Size := 0, Data := testContent 53 }),
       ("/subdirectory1/file6", { Filename := "file6", IsDirectory := false, Timestamp := now 7,
                                  Inode := 66, Size := 0, Data := testContent 54 }),
       ("/subdirectory1", { Filename := "subdirectory1", IsDirectory := true,
                            Timestamp := now 1, Inode := 1002, Size := 0, Data := [] }),
       ("/file1", { Filename := "file1", IsDirectory := false, Timestamp := now 2, Inode := 11,
                    Size := 0, Data := testContent 49 }),
       ("/file2", { Filename := "file2", IsDirectory := false, Timestamp := now 3, Inode := 22,
                    Size := 0, Data := testContent 50 }),
       ("/file3", { Filename := "file3", IsDirectory := false, Timestamp := now 4, Inode := 33,
                    Size := 0, Data := testContent 51 })] := by
  rfl

/-- The order in which `init` visits the two keys of the shipped tree does
not change any map read: both orders give the same entry for every path and
the same children for every directory. -/
theorem shippedReversed_reads (now : Nat → Time) (k : String) :
    mapGet (shippedReversed now).fileIndex k = mapGet (shipped now).fileIndex k
      ∧ mapGet (shippedReversed now).tree k = mapGet (shipped now).tree k := by
  constructor
  · rw [shippedReversed_fileIndex, shipped_fileIndex]
    simp only [mapGet]
    split_ifs <;> first | rfl | simp_all
  · simp only [shippedReversed, shipped, tree, List.reverse_cons, List.reverse_nil,
      List.nil_append, List.cons_append, mapGet]
    split_ifs <;> first | rfl | simp_all

theorem mapGet_Inode_injective (m : GoMap indexedFile)
    (hnd : (m.map fun p => p.2.Inode).Nodup) (p q : String) (e1 e2 : indexedFile)
    (h1 : mapGet m p = some e1) (h2 : mapGet m q = some e2) (hino : e1.Inode = e2.Inode) :
    p = q := by
  induction m with
  | nil => simp [mapGet] at h1
  | cons kv rest ih =>
    obtain ⟨k, v⟩ := kv
    simp only [List.map_cons, List.nodup_cons, List.mem_map, not_exists, not_and] at hnd
    by_cases hp : p = k
    · by_cases hq : q = k
      · rw [hp, hq]
      · simp only [mapGet, hp, hq, if_true, if_false, Option.some.injEq] at h1 h2
        subst h1
        exact absurd hino.symm (hnd.1 (q, e2) (mapGet_mem rest q e2 h2))
    · by_cases hq : q = k
      · simp only [mapGet, hp, hq, if_true, if_false, Option.some.injEq] at h1 h2
        subst h2
        exact absurd hino (hnd.1 (p, e1) (mapGet_mem rest p e1 h1))
      · simp only [mapGet, hp, hq, if_false] at h1 h2
        exact ih hnd.2 h1 h2

/-- C16: in the shipped hierarchy after `init`, two different paths of the
flat index never carry the same `Inode`: the root and the seven declared
entries have pairwise distinct inodes. -/
theorem shipped_Inode_unique (now : Nat → Time) (p q : String) (e1 e2 : indexedFile)
    (h1 : mapGet (shipped now).fileIndex p = some e1)
    (h2 : mapGet (shipped now).fileIndex q = some e2) (hino : e1.Inode = e2.Inode) : p = q := by
  apply mapGet_Inode_injective (shipped now).fileIndex _ p q e1 e2 h1 h2 hino
  rw [shipped_fileIndex]
  simp only [List.map_cons, List.map_nil]
  decide

/-- The shipped root (inode 1001) and `/file1` (inode 11): equal inodes only on
equal paths. -/
theorem shipped_Inode_unique_witness :
    (mapGet (shipped epoch).fileIndex "/").map (fun e => e.Inode) = some 1001
      ∧ (mapGet (shipped epoch).fileIndex "/file1").map (fun e => e.Inode) = some 11
      ∧ "/file1" = "/file1" :=
  ⟨by decide, by decide,
    shipped_Inode_unique epoch "/file1" "/file1"
      { Filename := "file1", IsDirectory := false, Timestamp := epoch 2, Inode := 11,
        Size := 0, Data := testContent 49 }
      { Filename := "file1", IsDirectory := false, Timestamp := epoch 2, Inode := 11,
        Size := 0, Data := testContent 49 }
      (by decide) (by decide) rfl⟩

/-- C17: in the shipped hierarchy after `init`, every key of the tree is a key
of the flat index whose entry is a directory, and every key of the flat index
that is not a key of the tree has an entry that is a file. -/
theorem shipped_views_consistent (now : Nat → Time) (p : String) :
    (∀ files, mapGet (shipped now).tree p = some files →
        ∃ e, mapGet (shipped now).fileIndex p = some e ∧ e.IsDirectory = true)
      ∧ (∀ e, mapGet (shipped now).fileIndex p = some e → mapGet (shipped now).tree p = none →
          e.IsDirectory = false) := by
  rw [shipped_fileIndex]
  simp only [shipped, tree, mapGet]
  constructor
  · intro files hfiles
    by_cases h1 : p = "/"
    · simp [h1]
    · by_cases h2 : p = "/subdirectory1"
      · simp [h2]
      · simp [h1, h2] at hfiles
  · intro e he hnone
    by_cases h1 : p = "/"
    · simp [h1] at hnone
    · by_cases h2 : p = "/subdirectory1"
      · simp [h2] at hnone
      · simp only [h1, h2, if_false] at he
        split_ifs at he <;> cases he <;> rfl

/-- In the shipped hierarchy `/subdirectory1` is in both views and is a
directory; `/file1` is only in the flat index and is a file. -/
theorem shipped_views_consistent_witness :
    (∃ e, mapGet (shipped epoch).fileIndex "/subdirectory1" = some e ∧ e.IsDirectory = true)
      ∧ mapGet (shipped epoch).tree "/file1" = none
      ∧ ({ Filename := "file1", IsDirectory := false, Timestamp := epoch 2, Inode := 11,
           Size := 0, Data := testContent 49 } : indexedFile).IsDirectory = false :=
  ⟨(shipped_views_consistent epoch "/subdirectory1").1
      [{ Filename := "file4", IsDirectory := false, Timestamp := epoch 5, Inode := 44,
         Size := 0, Data := testContent 52 },
       { Filename := "file5", IsDirectory := false, Timestamp := epoch 6, Inode := 55,
         Size := 0, Data := testContent 53 },
       { Filename := "file6", IsDirectory := false, Timestamp := epoch 7, Inode := 66,
         Size := 0, Data := testContent 54 }] (by decide),
    by decide,
    (shipped_views_consistent epoch "/file1").2
      { Filename := "file1", IsDirectory := false, Timestamp := epoch 2, Inode := 11,
        Size := 0, Data := testContent 49 } (by decide) (by decide)⟩

/-! ## Mode and size -/

/-- C18: `mode()` depends only on `IsDirectory`: a directory yields the
permission bits 0755 with type tag `S_IFDIR`, a file yields 0644 with type tag
`S_IFREG`; the permission bits and the type tag do not overlap, so
`mode & 0777` and `mode & S_IFMT` recover them, and neither group nor other
gets a write bit. -/
theorem mode_by_kind (file : indexedFile) :
    (file.IsDirectory = true →
        file.mode = 0o755 ||| S_IFDIR ∧ file.mode &&& 0o777 = 0o755
          ∧ file.mode &&& S_IFMT = S_IFDIR)
      ∧ (file.IsDirectory = false →
        file.mode = 0o644 ||| S_IFREG ∧ file.mode &&& 0o777 = 0o644
          ∧ file.mode &&& S_IFMT = S_IFREG)
      ∧ 0o777 &&& S_IFMT = 0
      ∧ file.mode &&& 0o022 = 0
      ∧ file.mode < 2 ^ 32
      ∧ (∀ other : indexedFile, other.IsDirectory = file.IsDirectory →
          other.mode = file.mode) := by
  refine ⟨?_, ?_, by decide, ?_, ?_, ?_⟩
  · intro hdir
    simp only [indexedFile.mode, hdir, if_true]
    decide
  · intro hfile
    simp only [indexedFile.mode, hfile]
    decide
  · unfold indexedFile.mode
    split <;> decide
  · unfold indexedFile.mode
    split <;> decide
  · intro other hsame
    simp only [indexedFile.mode, hsame]

/-- The shipped directory `subdirectory1` and the file `a` of scenario 1. -/
theorem mode_by_kind_witness :
    ({ Filename := "subdirectory1", IsDirectory := true, Timestamp := epoch 1, Inode := 1002,
       Size := 0, Data := [] } : indexedFile).mode &&& S_IFMT = S_IFDIR
      ∧ fileA.mode &&& 0o777 = 0o644 ∧ fileA.mode &&& S_IFMT = S_IFREG :=
  ⟨((mode_by_kind _).1 rfl).2.2, ((mode_by_kind fileA).2.1 rfl).2.1,
    ((mode_by_kind fileA).2.1 rfl).2.2⟩

/-- C19: `size()` is the constant 10 for a directory, whatever its `Data`, and
`len(Data)` for a file (a Go slice length is below `2^64`); it does not depend on
the stored `Size` field; and the `Size` that `setAttributes` writes is `size()`. -/
theorem size_by_kind (file : indexedFile) :
    (file.IsDirectory = true → file.size = 10)
      ∧ (file.IsDirectory = false → file.Data.length < 2 ^ 64 →
          file.size = file.Data.length)
      ∧ (∀ s : Nat, ({ file with Size := s } : indexedFile).size = file.size)
      ∧ (∀ out : Attr, (file.setAttributes out).Size = file.size) := by
  refine ⟨?_, ?_, ?_, ?_⟩
  · intro hdir
    simp [indexedFile.size, hdir]
  · intro hfile hlen
    simp only [indexedFile.size, hfile]
    exact Nat.mod_eq_of_lt hlen
  · intro s
    rfl
  · intro out
    rfl

/-- Scenario 1 of the specification: the file with payload `"hi\n"` reports
size 3, also through `setAttributes` and with another stored `Size`; a
directory with data reports 10. -/
theorem size_by_kind_witness :
    fileA.size = 3 ∧ (fileA.setAttributes zeroAttr).Size = 3
      ∧ ({ fileA with Size := 99 } : indexedFile).size = 3
      ∧ ({ fileA with IsDirectory := true } : indexedFile).size = 10 :=
  ⟨((size_by_kind fileA).2.1 rfl (by decide)).trans rfl,
    ((size_by_kind fileA).2.2.2 zeroAttr).trans (by decide),
    ((size_by_kind fileA).2.2.1 99).trans (by decide),
    (size_by_kind { fileA with IsDirectory := true }).1 rfl⟩

/-! ## Directory listings and stat results -/

theorem Readdir_agrees_with_Getattr_of_nodup (t : GoMap (List indexedFile))
    (index0 : GoMap indexedFile) (hnd : (declaredPaths t).Nodup) (hn hn2 : HelloNode)
    (f : Option readOnlyFile) (out : AttrOut) (entries : List DirEntry) (de : DirEntry)
    (hr : hn.Readdir ⟨init t index0, t⟩ = (some entries, OK)) (hde : de ∈ entries)
    (hpath2 : hn2.currentPath = filepath.Join hn.currentPath de.Name) :
    (hn2.Getattr ⟨init t index0, t⟩ f out).2 = OK
      ∧ (hn2.Getattr ⟨init t index0, t⟩ f out).1.Attr.Ino = de.Ino
      ∧ (hn2.Getattr ⟨init t index0, t⟩ f out).1.Attr.Mode = de.Mode := by
  cases hget : mapGet t hn.currentPath with
  | none => simp [HelloNode.Readdir, hget] at hr
  | some files =>
    simp only [HelloNode.Readdir, hget, Prod.mk.injEq, Option.some.injEq, and_true] at hr
    subst hr
    obtain ⟨c, hc, rfl⟩ := List.mem_map.mp hde
    have hentry := init_get_of_nodup t index0 hn.currentPath files c hnd
      (mapGet_mem t _ files hget) hc
    simp [HelloNode.Getattr, hpath2, hentry, setAttributes_Ino, setAttributes_Mode]

theorem shipped_declaredPaths_nodup (now : Nat → Time) : (declaredPaths (tree now)).Nodup := by
  have hpaths : declaredPaths (tree now)
      = ["/subdirectory1", "/file1", "/file2", "/file3", "/subdirectory1/file4",
         "/subdirectory1/file5", "/subdirectory1/file6"] := rfl
  rw [hpaths]
  decide

/-- C20: in the shipped hierarchy after `init`, for every directory `d` whose
`Readdir` succeeds and every triple it produces, `Getattr` on the node at
`join(d, Name)` succeeds and reports the `Ino` and the `Mode` of the triple. -/
theorem shipped_Readdir_agrees_with_Getattr (now : Nat → Time) (hn hn2 : HelloNode)
    (f : Option readOnlyFile) (out : AttrOut) (entries : List DirEntry) (de : DirEntry)
    (hr : hn.Readdir (shipped now) = (some entries, OK)) (hde : de ∈ entries)
    (hpath2 : hn2.currentPath = filepath.Join hn.currentPath de.Name) :
    (hn2.Getattr (shipped now) f out).2 = OK
      ∧ (hn2.Getattr (shipped now) f out).1.Attr.Ino = de.Ino
      ∧ (hn2.Getattr (shipped now) f out).1.Attr.Mode = de.Mode :=
  Readdir_agrees_with_Getattr_of_nodup (tree now) (fileIndex now)
    (shipped_declaredPaths_nodup now) hn hn2 f out entries de hr hde hpath2

/-- In the shipped hierarchy the triple of `file5` listed by
`Readdir("/subdirectory1")` agrees with `Getattr("/subdirectory1/file5")`. -/
theorem shipped_Readdir_agrees_with_Getattr_witness :
    ((nodeAt "subdirectory1/file5").Getattr (shipped epoch) none zeroAttrOut).2 = OK
      ∧ ((nodeAt "subdirectory1/file5").Getattr (shipped epoch) none zeroAttrOut).1.Attr.Ino = 55
      ∧ ((nodeAt "subdirectory1/file5").Getattr (shipped epoch) none zeroAttrOut).1.Attr.Mode
          = 0o644 ||| S_IFREG :=
  shipped_Readdir_agrees_with_Getattr epoch (nodeAt "subdirectory1") (nodeAt "subdirectory1/file5")
    none zeroAttrOut
    [{ Name := "file4", Mode := 0o644 ||| S_IFREG, Ino := 44 },
     { Name := "file5", Mode := 0o644 ||| S_IFREG, Ino := 55 },
     { Name := "file6", Mode := 0o644 ||| S_IFREG, Ino := 66 }]
    { Name := "file5", Mode := 0o644 ||| S_IFREG, Ino := 55 }
    (by decide) (by decide) (by decide)

end GoFuseExample
